import Mathlib

/-!
Verification development for the SimpleCite citation engine
(`src/pages/SimpleCite.tsx` of the SimpleTools repository).

The TypeScript source is shallowly embedded below.  JavaScript strings are
modelled as Lean `String`; a JS string-typed value that may be `undefined`
(a missing key of a `Partial<Metadata>`) is modelled as `Option String`.
JS string truthiness (`Boolean(s)`) corresponds to the string being
non-empty.  Platform collaborators that are not part of the repository
(`fetch`, `DOMParser`, `JSON.parse`, `new URL`, `new Date`) are modelled as
explicit function parameters or small explicit models, noted at each site.

JS string primitives (`trim`, `toLowerCase`, `split`, slicing, searching)
are modelled by structurally recursive functions over the character list of
a `String`, so that every definition evaluates inside the kernel.
-/

/-- Character constants written via code points to keep source lines plain. -/
def quoteC : Char := Char.ofNat 34

/-- Apostrophe character (code point 39). -/
def aposC : Char := Char.ofNat 39

/-- Left curly brace character (code point 123). -/
def lbraceC : Char := Char.ofNat 123

/-- Right curly brace character (code point 125). -/
def rbraceC : Char := Char.ofNat 125

/-- Backtick character (code point 96). -/
def tickC : Char := Char.ofNat 96

/-- Newline character (code point 10). -/
def nlC : Char := Char.ofNat 10

/-- Whitespace test used to model the JS `\s` class and `trim` (ASCII part). -/
def wsChar (c : Char) : Bool := c.isWhitespace

/-- Drop leading and trailing whitespace from a character list. -/
def trimChars (l : List Char) : List Char :=
  ((l.dropWhile wsChar).reverse.dropWhile wsChar).reverse

/-- Models `String.prototype.trim`. -/
def jsTrim (s : String) : String := ⟨trimChars s.data⟩

/-- Models `String.prototype.toLowerCase` (ASCII). -/
def jsToLower (s : String) : String := ⟨s.data.map Char.toLower⟩

/-- Models `s.length` (count of characters). -/
def jsLength (s : String) : Nat := s.data.length

/-- Models `s.slice(0, n)`. -/
def jsTake (s : String) (n : Nat) : String := ⟨s.data.take n⟩

/-- Models `s.slice(n)`. -/
def jsDrop (s : String) (n : Nat) : String := ⟨s.data.drop n⟩

/-- Models `s.slice(-n)` (the last `n` characters). -/
def jsTakeRight (s : String) (n : Nat) : String :=
  ⟨(s.data.reverse.take n).reverse⟩

/-- Models `s.startsWith(pat)`. -/
def jsStartsWith (s pat : String) : Bool :=
  s.data.take pat.data.length == pat.data

/-- Models `s.endsWith(pat)`. -/
def jsEndsWith (s pat : String) : Bool :=
  s.data.reverse.take pat.data.length == pat.data.reverse

/-- Substring occurrence test on character lists. -/
def hasSubChars (pat : List Char) : List Char → Bool
  | [] => pat.isEmpty
  | c :: r => ((c :: r).take pat.length == pat) || hasSubChars pat r

/-- Models `s.includes(pat)` / an unanchored regex literal search. -/
def jsIncludes (s pat : String) : Bool := hasSubChars pat.data s.data

/-- Split a character list at every character satisfying `p`
(empty segments kept, as with a JS single-character split). -/
def splitChars (p : Char → Bool) : List Char → List (List Char)
  | [] => [[]]
  | c :: r =>
    if p c then [] :: splitChars p r
    else
      match splitChars p r with
      | [] => [[c]]
      | seg :: rest => (c :: seg) :: rest

/-- Models `s.split(c)` for a single separator character class. -/
def jsSplit (p : Char → Bool) (s : String) : List String :=
  (splitChars p s.data).map fun l => (⟨l⟩ : String)

/-- Models `Array.prototype.join(sep)` over strings. -/
def jsJoin (sep : String) : List String → String
  | [] => ""
  | [x] => x
  | x :: y :: r => x ++ sep ++ jsJoin sep (y :: r)

/-!
The `Metadata` data model.
-/

/-- MetadataSource enum: `'manual' | 'simplecite' | 'simplecite-ai'`. -/
inductive MetadataSource where
  | manual
  | simplecite
  | simpleciteAi
deriving DecidableEq, Repr

/-- Full `Metadata` record: every string field present (possibly empty). -/
structure Metadata where
  title : String
  author : String
  year : String
  site : String
  publisher : String
  url : String
  accessed : String
  source : Option MetadataSource
deriving DecidableEq, Repr

/-- A `Partial<Metadata>` value: each string key may be absent. -/
structure PartialMetadata where
  title : Option String
  author : Option String
  year : Option String
  site : Option String
  publisher : Option String
  url : Option String
  accessed : Option String
  source : Option MetadataSource
deriving DecidableEq, Repr

/-- The empty partial record `{}`. -/
def emptyPartial : PartialMetadata :=
  ⟨none, none, none, none, none, none, none, none⟩

/-- The `emptyMeta` constant of the source (all fields empty strings). -/
def emptyMeta : Metadata :=
  ⟨"", "", "", "", "", "", "", none⟩

/-- Truthiness of an optional JS string: present and non-empty. -/
def filled : Option String → Bool
  | none => false
  | some s => s != ""

/-- One entry of the `guidelineOptions` configuration array. -/
structure GuidelineOption where
  value : String
  label : String
  helper : String
deriving DecidableEq, Repr

/-- The `guidelineOptions` array of the source, values and copy verbatim. -/
def guidelineOptions : List GuidelineOption :=
  [ ⟨"apa7", "APA (7th)", "Best for psychology, education, and other social sciences."⟩,
    ⟨"mla9", "MLA (9th)", "Humanities, language arts, and cultural studies."⟩,
    ⟨"ieee", "IEEE", "Engineering and technical documentation."⟩,
    ⟨"chicago17", "Chicago (17th)", "History, journalism, and publishing."⟩ ]

/-- Embeds `decodeGuideline`: look the stored style string up in
`guidelineOptions`; fall back to `'apa7'` when it is unknown. -/
def decodeGuideline (value : String) : String :=
  match guidelineOptions.find? (fun o => o.value == value) with
  | some o => o.value
  | none => "apa7"

/-- Embeds `normalizeMetadata`: trim every string field of a possibly null
partial record.  (The `String(value)` coercion branch of the source applies
to non-string JSON values, which the `Option String` field model cannot
carry; string-valued fields are trimmed exactly as in the source.) -/
def normalizeMetadata (data : Option PartialMetadata) : PartialMetadata :=
  match data with
  | none => emptyPartial
  | some d =>
    { title := d.title.map jsTrim
      author := d.author.map jsTrim
      year := d.year.map jsTrim
      publisher := d.publisher.map jsTrim
      site := d.site.map jsTrim
      url := d.url.map jsTrim
      accessed := d.accessed.map jsTrim
      source := none }

/-- Embeds `hasMeaningfulMetadata`. -/
def hasMeaningfulMetadata (data : Option PartialMetadata) : Bool :=
  match data with
  | none => false
  | some d => filled d.title || filled d.author || filled d.site || filled d.publisher

/-- Per-field step of `mergeMetadataValues`: the incoming value replaces the
current one only when it is a string that is non-empty after trimming, and
the trimmed value is what gets stored. -/
def mergeField (c i : Option String) : Option String :=
  match i with
  | none => c
  | some v => if jsTrim v != "" then some (jsTrim v) else c

/-- Embeds `mergeMetadataValues`. -/
def mergeMetadataValues (current incoming : Option PartialMetadata) :
    Option PartialMetadata :=
  match incoming with
  | none => current
  | some inc =>
    let cur := current.getD emptyPartial
    some
      { title := mergeField cur.title inc.title
        author := mergeField cur.author inc.author
        year := mergeField cur.year inc.year
        publisher := mergeField cur.publisher inc.publisher
        site := mergeField cur.site inc.site
        url := mergeField cur.url inc.url
        accessed := mergeField cur.accessed inc.accessed
        source := match inc.source with
          | some s => some s
          | none => cur.source }

/-- Embeds `metadataIsSufficient`. -/
def metadataIsSufficient (data : Option PartialMetadata) (requireAuthor : Bool) :
    Bool :=
  match data with
  | none => false
  | some d =>
    let hasTitle := filled d.title
    let hasOrigin := filled d.site || filled d.publisher || filled d.url
    let hasAuthor := filled d.author
    cond requireAuthor (hasTitle && hasOrigin && hasAuthor) (hasTitle && hasOrigin)

/-- Accessors of the seven string keys of `metadataStringKeys`. -/
def metadataFields : List (PartialMetadata → Option String) :=
  [ PartialMetadata.title, PartialMetadata.author, PartialMetadata.year,
    PartialMetadata.publisher, PartialMetadata.site, PartialMetadata.url,
    PartialMetadata.accessed ]

/-- Characterisation of the sufficiency check, shared by several proofs. -/
theorem suff_iff (d : PartialMetadata) (ra : Bool) :
    metadataIsSufficient (some d) ra = true ↔
      (filled d.title = true
        ∧ (filled d.site = true ∨ filled d.publisher = true ∨ filled d.url = true)
        ∧ (ra = true → filled d.author = true)) := by
  cases ra <;>
    simp [metadataIsSufficient, Bool.and_eq_true, Bool.or_eq_true] <;>
    try tauto

/-- Non-empty fields survive a merge step. -/
theorem filled_mergeField (c i : Option String) (hc : filled c = true) :
    filled (mergeField c i) = true := by
  match i with
  | none => simpa [mergeField] using hc
  | some v =>
    by_cases hv : jsTrim v != ""
    · simp only [mergeField, hv, if_true, filled]
    · simpa [mergeField, hv] using hc

/-- Claim C2: the sufficiency check is exactly non-empty title plus at least
one non-empty origin field, with author additionally required only in the
`requireAuthor` variant, and a null record is never sufficient. -/
theorem c2_sufficiency_characterization :
    ∀ (d : PartialMetadata) (ra : Bool),
      (metadataIsSufficient (some d) false = true ↔
        (filled d.title = true ∧
          (filled d.site = true ∨ filled d.publisher = true ∨ filled d.url = true)))
      ∧ (metadataIsSufficient (some d) true = true ↔
        (filled d.title = true ∧
          (filled d.site = true ∨ filled d.publisher = true ∨ filled d.url = true)
          ∧ filled d.author = true))
      ∧ metadataIsSufficient none ra = false := by
  intro d ra
  refine ⟨?_, ?_, rfl⟩
  · rw [suff_iff]; simp
  · rw [suff_iff]; simp

/-- Claim C3 counterexample: merging stores the trimmed incoming value, so
for `b.title = " B "` (non-empty after trimming) the merged field is `"B"`,
not `b.title` itself as the claim states. -/
theorem c3_merge_counterexample :
    jsTrim " B " ≠ ""
    ∧ ((mergeMetadataValues (some { emptyPartial with title := some "A" })
          (some { emptyPartial with title := some " B " })).getD emptyPartial).title
        = some "B"
    ∧ (some "B" : Option String) ≠ some " B " := by
  refine ⟨by decide, by decide, by decide⟩

/-- Claim C3 (amended): for every string field, the merged value is the
trimmed incoming value when that is non-empty, and the current value
otherwise; a non-empty current field is never discarded; the source tag is
overwritten exactly when the incoming record specifies one. -/
theorem c3_merge_field_behaviour :
    ∀ (a b : PartialMetadata),
      (∀ f, f ∈ metadataFields →
        f ((mergeMetadataValues (some a) (some b)).getD emptyPartial)
            = mergeField (f a) (f b)
          ∧ (filled (f a) = true →
              filled (mergeField (f a) (f b)) = true))
      ∧ ((mergeMetadataValues (some a) (some b)).getD emptyPartial).source
          = (match b.source with | some s => some s | none => a.source) := by
  intro a b
  refine ⟨?_, rfl⟩
  intro f hf
  simp only [metadataFields, List.mem_cons, List.not_mem_nil, or_false] at hf
  rcases hf with rfl | rfl | rfl | rfl | rfl | rfl | rfl
  · exact ⟨rfl, filled_mergeField _ _⟩
  · exact ⟨rfl, filled_mergeField _ _⟩
  · exact ⟨rfl, filled_mergeField _ _⟩
  · exact ⟨rfl, filled_mergeField _ _⟩
  · exact ⟨rfl, filled_mergeField _ _⟩
  · exact ⟨rfl, filled_mergeField _ _⟩
  · exact ⟨rfl, filled_mergeField _ _⟩

/-- Witness for the amended C3 theorem at a concrete record and field. -/
theorem c3_merge_field_behaviour_witness :
    PartialMetadata.title
        ((mergeMetadataValues (some { emptyPartial with title := some "A" })
          (some { emptyPartial with title := some " B " })).getD emptyPartial)
      = mergeField (some "A") (some " B ") :=
  ((c3_merge_field_behaviour
      { emptyPartial with title := some "A" }
      { emptyPartial with title := some " B " }).1
    PartialMetadata.title (by simp [metadataFields])).1

/-- Claim C5: sufficiency is monotone under merge, for either setting of the
author requirement. -/
theorem c5_sufficiency_monotone_under_merge :
    ∀ (a : PartialMetadata) (b : Option PartialMetadata) (ra : Bool),
      metadataIsSufficient (some a) ra = true →
      metadataIsSufficient (mergeMetadataValues (some a) b) ra = true := by
  intro a b ra h
  match b with
  | none => exact h
  | some inc =>
    rw [suff_iff] at h
    show metadataIsSufficient (some _) ra = true
    rw [suff_iff]
    obtain ⟨ht, ho, ha⟩ := h
    refine ⟨filled_mergeField _ _ ht, ?_, fun hra => filled_mergeField _ _ (ha hra)⟩
    rcases ho with h1 | h2 | h3
    · exact Or.inl (filled_mergeField _ _ h1)
    · exact Or.inr (Or.inl (filled_mergeField _ _ h2))
    · exact Or.inr (Or.inr (filled_mergeField _ _ h3))

/-- Witness for C5 at a concrete sufficient record and a concrete merge. -/
theorem c5_sufficiency_monotone_under_merge_witness :
    metadataIsSufficient
      (mergeMetadataValues
        (some { emptyPartial with title := some "T", url := some "https://e.com" })
        (some { emptyPartial with author := some "  " }))
      false = true :=
  c5_sufficiency_monotone_under_merge
    { emptyPartial with title := some "T", url := some "https://e.com" }
    (some { emptyPartial with author := some "  " })
    false (by decide)

/-- Claim C10: every decoded style string lies in the closed four-style set,
and unknown strings decode to `apa7`. -/
theorem c10_decode_guideline_closed :
    ∀ s : String,
      decodeGuideline s ∈ ["apa7", "mla9", "ieee", "chicago17"]
      ∧ (s ∉ (["apa7", "mla9", "ieee", "chicago17"] : List String) →
          decodeGuideline s = "apa7") := by
  intro s
  by_cases h1 : s = "apa7"
  · subst h1; exact ⟨by decide, fun hn => absurd (by decide) hn⟩
  by_cases h2 : s = "mla9"
  · subst h2; exact ⟨by decide, fun hn => absurd (by decide) hn⟩
  by_cases h3 : s = "ieee"
  · subst h3; exact ⟨by decide, fun hn => absurd (by decide) hn⟩
  by_cases h4 : s = "chicago17"
  · subst h4; exact ⟨by decide, fun hn => absurd (by decide) hn⟩
  have e : decodeGuideline s = "apa7" := by
    have b1 : (("apa7" : String) == s) = false := by
      simp only [beq_eq_false_iff_ne]; exact fun h => h1 h.symm
    have b2 : (("mla9" : String) == s) = false := by
      simp only [beq_eq_false_iff_ne]; exact fun h => h2 h.symm
    have b3 : (("ieee" : String) == s) = false := by
      simp only [beq_eq_false_iff_ne]; exact fun h => h3 h.symm
    have b4 : (("chicago17" : String) == s) = false := by
      simp only [beq_eq_false_iff_ne]; exact fun h => h4 h.symm
    simp [decodeGuideline, guidelineOptions, List.find?, b1, b2, b3, b4]
  exact ⟨by rw [e]; decide, fun _ => e⟩

/-- Witness for C10 at a string outside the four style keys. -/
theorem c10_decode_guideline_closed_witness :
    decodeGuideline "harvard" = "apa7" :=
  (c10_decode_guideline_closed "harvard").2 (by decide)

/-!
Name decomposition (claim C8).
-/

/-- Both components of a true boolean conjunction. -/
theorem and_parts {a b : Bool} (h : (a && b) = true) : a = true ∧ b = true := by
  cases a <;> cases b <;> simp_all

/-- First component of a false boolean disjunction. -/
theorem or_false_left {a b : Bool} (h : (a || b) = false) : a = false := by
  cases ha : a
  · rfl
  · rw [ha, Bool.true_or] at h
    exact absurd h (by decide)

/-- A true inequality test gives a false equality test. -/
theorem bne_t {a b : String} (h : (a != b) = true) : (a == b) = false := by
  cases hab : a == b
  · rfl
  · simp only [bne, hab] at h
    exact absurd h (by decide)

/-- A false inequality test gives equality. -/
theorem bne_f {a b : String} (h : (a != b) = false) : a = b := by
  cases hab : a == b
  · simp only [bne, hab] at h
    exact absurd h (by decide)
  · exact beq_iff_eq.mp hab

/-- A false boolean is not true, in the form `if_neg` consumes. -/
theorem bfalse_not_true {b : Bool} (h : b = false) : ¬(b = true) := by
  rw [h]; decide

/-- Result shape of `decomposeName`. -/
structure NameParts where
  first : String
  last : String
deriving DecidableEq, Repr

/-- Embeds `decomposeName`: a comma splits into `last, first` (only the
first two comma-separated components are used, as with the destructuring
assignment of the source); otherwise the final whitespace token is the last
name.  A JS `split(/\s+/)` on a trimmed string produces no empty segments,
which the single-character split plus empty filter reproduces. -/
def decomposeName (name : String) : NameParts :=
  let trimmed := jsTrim name
  if trimmed == "" then ⟨"", ""⟩
  else if jsIncludes trimmed "," then
    let comps := (jsSplit (fun c => c == ',') trimmed).map jsTrim
    ⟨comps.getD 1 "", comps.getD 0 ""⟩
  else
    let parts := (jsSplit wsChar trimmed).filter (fun p => p != "")
    if parts.length == 1 then ⟨"", parts.headD ""⟩
    else ⟨jsJoin " " parts.dropLast, parts.getLastD ""⟩

/-- Getting an element of a trimmed list with default `""` commutes with
trimming afterwards, since trimming the empty string is the identity. -/
theorem getD_map_trim (l : List String) (i : Nat) :
    (l.map jsTrim).getD i "" = jsTrim (l.getD i "") := by
  induction l generalizing i with
  | nil => cases i <;> rfl
  | cons x xs ih => cases i with
    | zero => rfl
    | succ n => simpa using ih n

/-- Claim C8 counterexample: with more than one comma the source keeps only
the second comma-separated component as the first name, rather than all the
text after the first comma. -/
theorem c8_decompose_counterexample :
    decomposeName "Doe, Jane, Jr." = ⟨"Jane", "Doe"⟩
    ∧ (NameParts.mk "Jane" "Doe") ≠ ⟨"Jane, Jr.", "Doe"⟩ := by
  refine ⟨by decide, by decide⟩

/-- Claim C8 (amended): an empty or whitespace-only name yields two empty
parts; a name containing a comma yields the trimmed text before the first
comma as `last` and the trimmed text between the first and second commas
(or the end) as `first`; otherwise the final whitespace-delimited token is
`last` and the whitespace-normalised remainder is `first` (empty for a
single-token name). -/
theorem c8_decompose_name :
    ∀ name : String,
      (jsTrim name = "" → decomposeName name = ⟨"", ""⟩)
      ∧ (jsTrim name ≠ "" → jsIncludes (jsTrim name) "," = true →
          decomposeName name =
            ⟨jsTrim ((jsSplit (fun c => c == ',') (jsTrim name)).getD 1 ""),
             jsTrim ((jsSplit (fun c => c == ',') (jsTrim name)).getD 0 "")⟩)
      ∧ (jsTrim name ≠ "" → jsIncludes (jsTrim name) "," = false →
          decomposeName name =
            ⟨jsJoin " " (((jsSplit wsChar (jsTrim name)).filter (fun p => p != "")).dropLast),
             ((jsSplit wsChar (jsTrim name)).filter (fun p => p != "")).getLastD ""⟩) := by
  intro name
  refine ⟨?_, ?_, ?_⟩
  · intro h
    simp [decomposeName, h]
  · intro h1 h2
    have hb : (jsTrim name == "") = false := beq_eq_false_iff_ne.mpr h1
    simp only [decomposeName, hb, Bool.false_eq_true, if_false, h2, if_true]
    rw [getD_map_trim, getD_map_trim]
  · intro h1 h2
    have hb : (jsTrim name == "") = false := beq_eq_false_iff_ne.mpr h1
    simp only [decomposeName, hb, Bool.false_eq_true, if_false, h2, if_true]
    by_cases hlen :
        (((jsSplit wsChar (jsTrim name)).filter (fun p => p != "")).length == 1) = true
    · obtain ⟨p, hp⟩ := List.length_eq_one.mp (beq_iff_eq.mp hlen)
      rw [hp]
      simp [jsJoin]
    · rw [Bool.not_eq_true] at hlen
      rw [hlen]
      simp

/-- Witness for the amended C8 theorem at concrete names. -/
theorem c8_decompose_name_witness :
    decomposeName "Doe, Jane, Jr."
        = ⟨jsTrim ((jsSplit (fun c => c == ',') (jsTrim "Doe, Jane, Jr.")).getD 1 ""),
           jsTrim ((jsSplit (fun c => c == ',') (jsTrim "Doe, Jane, Jr.")).getD 0 "")⟩
    ∧ decomposeName "Ada Jane Lovelace"
        = ⟨jsJoin " "
            (((jsSplit wsChar (jsTrim "Ada Jane Lovelace")).filter (fun p => p != "")).dropLast),
           ((jsSplit wsChar (jsTrim "Ada Jane Lovelace")).filter
              (fun p => p != "")).getLastD ""⟩ :=
  ⟨(c8_decompose_name "Doe, Jane, Jr.").2.1 (by decide) (by decide),
   (c8_decompose_name "Ada Jane Lovelace").2.2 (by decide) (by decide)⟩

/-!
The metadata finaliser (claim C6): origin promotion followed by the
organizational-author scrub.  The platform `new URL(value).hostname`
operation is modelled by the collaborator parameter `g`, which returns
`none` when the URL constructor would throw.
-/

/-- Strip a leading `www.` (case-insensitively), as in `hostnameFromUrl`. -/
def stripWww (h : String) : String :=
  if jsToLower (jsTake h 4) == "www." then jsDrop h 4 else h

/-- Embeds `hostnameFromUrl`; `g` models the platform URL parser. -/
def hostnameFromUrl (g : String → Option String) (value : String) : String :=
  match g value with
  | some h => stripWww h
  | none => ""

/-- Character class `[a-z0-9.-]` of `domainPattern`, case-insensitive. -/
def isHostClassChar (c : Char) : Bool :=
  c.isAlpha || c.isDigit || c == '.' || c == '-'

/-- Embeds the anchored regex `^[a-z0-9.-]+\.[a-z]{2,}$` (case-insensitive):
the final dot-separated component is two or more letters, everything before
the last dot is a non-empty run of class characters. -/
def domainPattern (s : String) : Bool :=
  let comps := jsSplit (fun c => c == '.') s
  match comps.getLast? with
  | none => false
  | some tld =>
    decide (2 ≤ comps.length) && decide (2 ≤ jsLength tld)
      && tld.data.all Char.isAlpha
      && (jsJoin "." comps.dropLast != "")
      && comps.dropLast.all (fun comp => comp.data.all isHostClassChar)

/-- Embeds `looksLikeHostname`. -/
def looksLikeHostname (g : String → Option String) (value url : String) : Bool :=
  if value == "" then false
  else
    let normalized := jsToLower (jsTrim value)
    if normalized == "" then false
    else if domainPattern normalized then true
    else if url != "" then
      let host := jsToLower (hostnameFromUrl g url)
      host != "" && host == normalized
    else false

/-- Site component of `promoteOriginFields` (the source mutates `next.site`
first, then decides about `next.publisher` against the updated site). -/
def promoteSite (g : String → Option String) (data : Metadata) : String :=
  if (data.site == "" || looksLikeHostname g data.site data.url)
      && data.publisher != "" then data.publisher
  else if data.site == ""
      && (if data.url != "" then hostnameFromUrl g data.url else "") != "" then
    (if data.url != "" then hostnameFromUrl g data.url else "")
  else data.site

/-- Publisher component of `promoteOriginFields`, evaluated against the
already-promoted site. -/
def promotePublisher (g : String → Option String) (data : Metadata) : String :=
  if data.publisher != ""
      && ((looksLikeHostname g data.publisher data.url && promoteSite g data != "")
          || jsToLower data.publisher == jsToLower (promoteSite g data)) then ""
  else data.publisher

/-- Embeds `promoteOriginFields`. -/
def promoteOriginFields (g : String → Option String) (data : Metadata) : Metadata :=
  { data with site := promoteSite g data, publisher := promotePublisher g data }

/-- Embeds `scrubOrganizationalAuthor`. -/
def scrubOrganizationalAuthor (g : String → Option String) (data : Metadata) :
    Metadata :=
  if data.author == "" then data
  else if (([data.site, data.publisher]
        ++ (if data.url != "" then [hostnameFromUrl g data.url] else [])).filter
          (fun v => v != "")).any
        (fun v => jsToLower (jsTrim v) == jsToLower (jsTrim data.author)) then
    { data with author := "" }
  else data

/-- Embeds `finalizeMetadata`. -/
def finalizeMetadata (g : String → Option String) (data : Metadata) : Metadata :=
  scrubOrganizationalAuthor g (promoteOriginFields g data)

/-- Origin promotion is idempotent. -/
theorem promote_idem (g : String → Option String) (r : Metadata) :
    promoteOriginFields g (promoteOriginFields g r) = promoteOriginFields g r := by
  by_cases hC1 : ((r.site == "" || looksLikeHostname g r.site r.url)
      && r.publisher != "") = true
  · have hPne : (r.publisher != "") = true := (and_parts hC1).2
    have hPeq : (r.publisher == "") = false := bne_t hPne
    have hs1 : promoteSite g r = r.publisher := by
      unfold promoteSite; rw [if_pos hC1]
    have hlow : (jsToLower r.publisher == jsToLower (promoteSite g r)) = true := by
      rw [hs1]; exact beq_self_eq_true _
    have hcond3 : (r.publisher != ""
        && ((looksLikeHostname g r.publisher r.url && promoteSite g r != "")
            || jsToLower r.publisher == jsToLower (promoteSite g r))) = true := by
      rw [hlow, Bool.or_true, Bool.and_true]; exact hPne
    have hp1 : promotePublisher g r = "" := by
      unfold promotePublisher; rw [if_pos hcond3]
    have hq : promoteOriginFields g r = { r with site := r.publisher, publisher := "" } := by
      unfold promoteOriginFields; rw [hs1, hp1]
    rw [hq]
    have hs2 : promoteSite g { r with site := r.publisher, publisher := "" }
        = r.publisher := by
      unfold promoteSite; simp [hPeq]
    have hp2 : promotePublisher g { r with site := r.publisher, publisher := "" }
        = "" := by
      unfold promotePublisher; simp
    unfold promoteOriginFields
    rw [hs2, hp2]
  · rw [Bool.not_eq_true] at hC1
    by_cases hC2 : (r.site == ""
        && (if r.url != "" then hostnameFromUrl g r.url else "") != "") = true
    · have hS : (r.site == "") = true := (and_parts hC2).1
      have hH : ((if r.url != "" then hostnameFromUrl g r.url else "") != "") = true :=
        (and_parts hC2).2
      have hHeq : ((if r.url != "" then hostnameFromUrl g r.url else "") == "") = false :=
        bne_t hH
      have hPne : (r.publisher != "") = false := by
        rw [hS, Bool.true_or, Bool.true_and] at hC1
        exact hC1
      have hPemp : r.publisher = "" := bne_f hPne
      have hs1 : promoteSite g r
          = (if r.url != "" then hostnameFromUrl g r.url else "") := by
        unfold promoteSite; rw [if_neg (bfalse_not_true hC1), if_pos hC2]
      have hp1 : promotePublisher g r = r.publisher := by
        unfold promotePublisher; rw [hPne, Bool.false_and]; simp
      have hq : promoteOriginFields g r
          = { r with site := (if r.url != "" then hostnameFromUrl g r.url else ""),
                     publisher := "" } := by
        unfold promoteOriginFields; rw [hs1, hp1, hPemp]
      rw [hq]
      have hs2 : promoteSite g
          { r with site := (if r.url != "" then hostnameFromUrl g r.url else ""),
                   publisher := "" }
          = (if r.url != "" then hostnameFromUrl g r.url else "") := by
        unfold promoteSite; simp [hHeq]
      have hp2 : promotePublisher g
          { r with site := (if r.url != "" then hostnameFromUrl g r.url else ""),
                   publisher := "" } = "" := by
        unfold promotePublisher; simp
      unfold promoteOriginFields
      rw [hs2, hp2]
    · rw [Bool.not_eq_true] at hC2
      have hs1 : promoteSite g r = r.site := by
        unfold promoteSite
        rw [if_neg (bfalse_not_true hC1), if_neg (bfalse_not_true hC2)]
      by_cases hC3 : (r.publisher != ""
          && ((looksLikeHostname g r.publisher r.url && promoteSite g r != "")
              || jsToLower r.publisher == jsToLower (promoteSite g r))) = true
      · have hPne : (r.publisher != "") = true := (and_parts hC3).1
        have hSne : (r.site == "") = false := by
          rw [hPne, Bool.and_true] at hC1
          exact or_false_left hC1
        have hp1 : promotePublisher g r = "" := by
          unfold promotePublisher; rw [if_pos hC3]
        have hq : promoteOriginFields g r = { r with site := r.site, publisher := "" } := by
          unfold promoteOriginFields; rw [hs1, hp1]
        rw [hq]
        have hs2 : promoteSite g { r with site := r.site, publisher := "" } = r.site := by
          unfold promoteSite; simp [hSne]
        have hp2 : promotePublisher g { r with site := r.site, publisher := "" } = "" := by
          unfold promotePublisher; simp
        unfold promoteOriginFields
        rw [hs2, hp2]
      · rw [Bool.not_eq_true] at hC3
        have hp1 : promotePublisher g r = r.publisher := by
          unfold promotePublisher; rw [if_neg (bfalse_not_true hC3)]
        have hq : promoteOriginFields g r = r := by
          unfold promoteOriginFields; rw [hs1, hp1]
        rw [hq]
        exact hq

/-- Origin promotion never reads the author field. -/
theorem promote_author_comm (g : String → Option String) (x : Metadata) (a : String) :
    promoteOriginFields g { x with author := a }
      = { promoteOriginFields g x with author := a } := rfl

/-- The scrub either keeps the record or clears exactly the author field. -/
theorem scrub_cases (g : String → Option String) (d : Metadata) :
    scrubOrganizationalAuthor g d = d
    ∨ scrubOrganizationalAuthor g d = { d with author := "" } := by
  unfold scrubOrganizationalAuthor
  repeat' split
  all_goals (first | exact Or.inl rfl | exact Or.inr rfl)

/-- The scrub leaves a record with an empty author untouched. -/
theorem scrub_author_empty (g : String → Option String) (d : Metadata)
    (h : d.author = "") : scrubOrganizationalAuthor g d = d := by
  unfold scrubOrganizationalAuthor
  rw [h]
  simp

/-- Claim C6: finalisation (origin promotion followed by the
organizational-author scrub) is idempotent, for every behaviour of the
platform URL parser. -/
theorem c6_finalize_idempotent :
    ∀ (g : String → Option String) (r : Metadata),
      finalizeMetadata g (finalizeMetadata g r) = finalizeMetadata g r := by
  intro g r
  show scrubOrganizationalAuthor g
      (promoteOriginFields g (scrubOrganizationalAuthor g (promoteOriginFields g r)))
    = scrubOrganizationalAuthor g (promoteOriginFields g r)
  rcases scrub_cases g (promoteOriginFields g r) with hs | hs
  · rw [hs, promote_idem]
    exact hs
  · rw [hs, promote_author_comm, promote_idem]
    exact scrub_author_empty g _ rfl

/-!
The citation formatter (claims C7 and C9).
-/

/-- Result pair of `formatCitation`. -/
structure CitationResult where
  text : String
  html : String
deriving DecidableEq, Repr

/-- The `monthNames` array of the source. -/
def monthNames : List String :=
  [ "January", "February", "March", "April", "May", "June", "July",
    "August", "September", "October", "November", "December" ]

/-- Month name for a 1-based month number. -/
def monthName (m : Nat) : String := monthNames.getD (m - 1) ""

/-- Numeric value of a digit list. -/
def digitsToNat (l : List Char) : Nat :=
  l.foldl (fun n c => n * 10 + (c.toNat - 48)) 0

/-- Test for the regex `^\d{4}$`. -/
def isFourDigits (s : String) : Bool :=
  s.data.length == 4 && s.data.all Char.isDigit

/-- Models the platform `new Date(value)` parser, restricted to the shapes
the formatter distinguishes: a bare four-digit year and an ISO
`YYYY-MM-DD` date, read in a UTC environment as (year, month, day); every
other shape is an invalid date (`none`), matching the
`Number.isNaN(parsed.getTime())` branch. -/
def jsDateParse (value : String) : Option (Nat × Nat × Nat) :=
  let cs := value.data
  if cs.length == 4 && cs.all Char.isDigit then
    some (digitsToNat cs, 1, 1)
  else if cs.length == 10 && (cs.take 4).all Char.isDigit
      && cs.getD 4 ' ' == '-' && ((cs.drop 5).take 2).all Char.isDigit
      && cs.getD 7 ' ' == '-' && ((cs.drop 8).take 2).all Char.isDigit then
    let y := digitsToNat (cs.take 4)
    let m := digitsToNat ((cs.drop 5).take 2)
    let d := digitsToNat ((cs.drop 8).take 2)
    if 1 ≤ m ∧ m ≤ 12 ∧ 1 ≤ d ∧ d ≤ 31 then some (y, m, d) else none
  else none

/-- Embeds `formatAccessedDate`. -/
def formatAccessedDate (value : String) : String :=
  if value == "" then ""
  else match jsDateParse value with
    | none => value
    | some (y, m, d) => monthName m ++ " " ++ toString d ++ ", " ++ toString y

/-- Embeds `formatPublishedDate`. -/
def formatPublishedDate (value : String) : String :=
  if value == "" then ""
  else
    let trimmed := jsTrim value
    match jsDateParse trimmed with
    | some (y, m, d) =>
      if isFourDigits trimmed then toString y
      else monthName m ++ " " ++ toString d ++ ", " ++ toString y
    | none => trimmed

/-- Concatenation of a per-character expansion, the shape of a global
single-character regex replacement. -/
def strConcatMap (f : Char → String) : List Char → String
  | [] => ""
  | c :: cs => f c ++ strConcatMap f cs

/-- Global replacement of one character by a string, the effect of
`value.replace(/x/g, repl)` for a single-character pattern `x`. -/
def replaceChar (target : Char) (repl : String) (s : String) : String :=
  strConcatMap (fun c => if c == target then repl else String.singleton c) s.data

/-- Embeds `escapeHtml`: the five sequential global replacements of the
source. -/
def escapeHtml (value : String) : String :=
  replaceChar aposC "&#39;"
    (replaceChar quoteC "&quot;"
      (replaceChar '>' "&gt;"
        (replaceChar '<' "&lt;"
          (replaceChar '&' "&amp;" value))))

/-- Embeds `escapeAttribute`. -/
def escapeAttribute (value : String) : String := escapeHtml value

/-- Embeds `linkHtml`. -/
def linkHtml (url : String) : String :=
  "<a href=\"" ++ escapeAttribute url ++ "\" target=\"_blank\" rel=\"noreferrer\">"
    ++ escapeHtml url ++ "</a>"

/-- Collapse every whitespace run to a single space
(the `replace(/\s+/g, ' ')` step). -/
def collapseWsChars : List Char → List Char
  | [] => []
  | [c] => if wsChar c then [' '] else [c]
  | a :: b :: r =>
    if wsChar a && wsChar b then collapseWsChars (b :: r)
    else (if wsChar a then ' ' else a) :: collapseWsChars (b :: r)

/-- Embeds `normalizeWhitespace`. -/
def normalizeWhitespace (value : String) : String :=
  jsTrim ⟨collapseWsChars value.data⟩

/-- Embeds `ensureTrailingPeriod`. -/
def ensureTrailingPeriod (value : String) : String :=
  if jsEndsWith (jsTrim value) "." then jsTrim value else jsTrim value ++ "."

/-- Embeds `joinCitationParts`. -/
def joinCitationParts (parts : List String) (fallback : String) : String :=
  let combined := normalizeWhitespace (jsTrim (jsJoin " " (parts.filter (fun p => p != ""))))
  if combined != "" then combined else fallback

/-- Embeds `buildCitationResult` (the `fallbackHtml || escapeHtml(...)`
default is the `none`/empty case). -/
def buildCitationResult (textParts htmlParts : List String) (fallbackText : String)
    (fallbackHtml : Option String) : CitationResult :=
  { text := joinCitationParts textParts fallbackText
    html := joinCitationParts htmlParts
      (match fallbackHtml with
        | some h => if h != "" then h else escapeHtml fallbackText
        | none => escapeHtml fallbackText) }

/-- Scanner state for the `\s+&\s+` author-separator replacement. -/
inductive AmpState where
  | normal
  | wsRun (buf : List Char)
  | wsAmp (buf : List Char)
  | absorb

/-- Left-to-right scanner realising `replace(/\s+&\s+/g, ';')`: a
whitespace run, an ampersand and a following whitespace run collapse to one
semicolon; anything else is emitted unchanged. -/
def ampScanGo : AmpState → List Char → List Char
  | .normal, [] => []
  | .wsRun b, [] => b.reverse
  | .wsAmp b, [] => b.reverse ++ ['&']
  | .absorb, [] => []
  | .normal, c :: r =>
    if wsChar c then ampScanGo (.wsRun [c]) r else c :: ampScanGo .normal r
  | .wsRun b, c :: r =>
    if wsChar c then ampScanGo (.wsRun (c :: b)) r
    else if c == '&' then ampScanGo (.wsAmp b) r
    else b.reverse ++ c :: ampScanGo .normal r
  | .wsAmp b, c :: r =>
    if wsChar c then ';' :: ampScanGo .absorb r
    else b.reverse ++ '&' :: c :: ampScanGo .normal r
  | .absorb, c :: r =>
    if wsChar c then ampScanGo .absorb r else c :: ampScanGo .normal r

/-- The `replace(/\s+&\s+/g, ';')` step of `parseAuthors`. -/
def replaceAmpSeparators (s : String) : String := ⟨ampScanGo .normal s.data⟩

/-- Left-to-right scanner realising `replace(/\sand\s/gi, ';')`.  The fuel
argument only makes the recursion structural; it is always at least the
list length, so it never runs out. -/
def andScanGo : Nat → List Char → List Char
  | 0, l => l
  | _ + 1, [] => []
  | n + 1, c1 :: rest =>
    match rest with
    | c2 :: c3 :: c4 :: c5 :: r2 =>
      if wsChar c1 && (c2.toLower == 'a') && (c3.toLower == 'n')
          && (c4.toLower == 'd') && wsChar c5 then
        ';' :: andScanGo n r2
      else c1 :: andScanGo n rest
    | _ => c1 :: rest

/-- The `replace(/\sand\s/gi, ';')` step of `parseAuthors`. -/
def replaceAndSeparators (s : String) : String := ⟨andScanGo s.data.length s.data⟩

/-- Embeds `parseAuthors`.  The JS `split(/[\n;]+/)` differs from splitting
at every single separator only by extra empty segments, which the final
empty filter removes either way. -/
def parseAuthors (raw : String) : List String :=
  if raw == "" then []
  else
    ((jsSplit (fun c => c == nlC || c == ';')
        (replaceAndSeparators (replaceAmpSeparators raw))).map jsTrim).filter
      (fun p => p != "")

/-- Embeds `initialsFrom`. -/
def initialsFrom (value : String) : String :=
  jsTrim (jsJoin " "
    (((jsSplit wsChar value).filter (fun p => p != "")).map
      (fun part => String.singleton (Char.toUpper (part.data.headD ' ')) ++ ".")))

/-- Embeds `formatAuthorsAPA`. -/
def formatAuthorsAPA (authors : List String) : String :=
  if authors.length == 0 then ""
  else
    let formatted := authors.map (fun name =>
      let parts := decomposeName name
      let initials := initialsFrom parts.first
      if parts.last == "" then name
      else if initials != "" then parts.last ++ ", " ++ initials
      else parts.last)
    if formatted.length == 1 then formatted.headD ""
    else if formatted.length == 2 then
      formatted.headD "" ++ " & " ++ formatted.getD 1 ""
    else jsJoin ", " formatted.dropLast ++ ", & " ++ formatted.getLastD ""

/-- Embeds `formatMlaName`. -/
def formatMlaName (name : String) (invert : Bool) : String :=
  let parts := decomposeName name
  if parts.last == "" then name
  else if !invert || parts.first == "" then
    jsTrim ((if parts.first != "" then parts.first ++ " " else "") ++ parts.last)
  else parts.last ++ ", " ++ parts.first

/-- Embeds `formatAuthorsMLA`. -/
def formatAuthorsMLA (authors : List String) : String :=
  if authors.length == 0 then ""
  else if authors.length == 1 then formatMlaName (authors.headD "") true
  else if authors.length == 2 then
    formatMlaName (authors.headD "") true ++ ", and "
      ++ formatMlaName (authors.getD 1 "") false
  else formatMlaName (authors.headD "") true ++ ", et al."

/-- Embeds `formatAuthorsIEEE`. -/
def formatAuthorsIEEE (authors : List String) : String :=
  if authors.length == 0 then ""
  else jsJoin ", " (authors.map (fun name =>
    let parts := decomposeName name
    let initials := initialsFrom parts.first
    let combined := jsTrim (initials ++ " " ++ parts.last)
    if combined != "" then combined else name))

/-- Embeds `formatAuthorsChicago`. -/
def formatAuthorsChicago (authors : List String) : String :=
  if authors.length == 0 then ""
  else if authors.length == 1 then formatMlaName (authors.headD "") true
  else if authors.length == 2 then
    formatMlaName (authors.headD "") true ++ " and "
      ++ formatMlaName (authors.getD 1 "") false
  else formatMlaName (authors.headD "") true ++ " et al."

/-- The display-title fallback chain of `formatCitation`. -/
def displayTitle (meta : Metadata) : String :=
  if meta.title != "" then meta.title
  else if meta.site != "" then meta.site
  else if meta.publisher != "" then meta.publisher
  else if meta.url != "" then meta.url
  else "Untitled work"

/-- The `push` closure of `formatCitation`: skip blank text, otherwise
append the trimmed text and the html (escaped text when no html is given). -/
def pushPart (acc : List String × List String) (text : String) (html : Option String) :
    List String × List String :=
  if jsTrim text == "" then acc
  else
    (acc.1 ++ [jsTrim text],
     acc.2 ++ [match html with
       | some h => if h != "" then h else escapeHtml (jsTrim text)
       | none => escapeHtml (jsTrim text)])

/-- Run a sequence of guarded `push` calls, as each style branch of
`formatCitation` does: each step is a guard (the `if` around the `push`),
the text fragment and the optional html fragment. -/
def stylePushes (steps : List (Bool × String × Option String)) :
    List String × List String :=
  steps.foldl
    (fun acc step => if step.1 then pushPart acc step.2.1 step.2.2 else acc)
    ([], [])

/-- Fragment assembly of the `apa7` branch of `formatCitation`.  The final
url clause of the source pushes the retrieved-from sentence when an access
date exists and the bare url otherwise; the two mutually exclusive guards
encode that choice. -/
def apa7Parts (authors : List String) (fallbackTitle accessed published : String)
    (meta : Metadata) : List String × List String :=
  let authorSegment := formatAuthorsAPA authors
  stylePushes
    [ (authorSegment != "", ensureTrailingPeriod authorSegment, none),
      (true, (if published != "" then "(" ++ published ++ ")." else "(n.d.)."), none),
      (true, fallbackTitle ++ ".",
        if fallbackTitle != "" then some ("<i>" ++ escapeHtml fallbackTitle ++ "</i>.")
        else none),
      (meta.site != "", meta.site ++ ".", none),
      (meta.publisher != "" && meta.publisher != meta.site, meta.publisher ++ ".", none),
      (meta.url != "" && accessed != "",
        "Retrieved " ++ accessed ++ " from " ++ meta.url ++ ".",
        some ("Retrieved " ++ escapeHtml accessed ++ " from " ++ linkHtml meta.url ++ ".")),
      (meta.url != "" && accessed == "", meta.url, some (linkHtml meta.url)) ]

/-- Fragment assembly of the `mla9` branch of `formatCitation`. -/
def mla9Parts (authors : List String) (fallbackTitle accessed published : String)
    (meta : Metadata) : List String × List String :=
  let authorSegment := formatAuthorsMLA authors
  stylePushes
    [ (authorSegment != "", authorSegment ++ ".", none),
      (true, "\"" ++ fallbackTitle ++ ".\"",
        if fallbackTitle != "" then
          some ("&ldquo;" ++ escapeHtml fallbackTitle ++ ".&rdquo;")
        else none),
      (meta.site != "", meta.site ++ ",",
        some ("<i>" ++ escapeHtml meta.site ++ "</i>,")),
      (meta.publisher != "", meta.publisher ++ ",", none),
      (published != "", published ++ ",", none),
      (meta.url != "", meta.url ++ ".", some (linkHtml meta.url ++ ".")),
      (accessed != "", "Accessed " ++ accessed ++ ".",
        some ("Accessed " ++ escapeHtml accessed ++ ".")) ]

/-- Fragment assembly of the `ieee` branch of `formatCitation`. -/
def ieeeParts (authors : List String) (fallbackTitle accessed published : String)
    (meta : Metadata) : List String × List String :=
  let authorSegment := formatAuthorsIEEE authors
  stylePushes
    [ (authorSegment != "", authorSegment ++ ",", none),
      (true, "\"" ++ fallbackTitle ++ ",\"",
        if fallbackTitle != "" then
          some ("&ldquo;" ++ escapeHtml fallbackTitle ++ ",&rdquo;")
        else none),
      (meta.site != "", meta.site ++ ",",
        some ("<i>" ++ escapeHtml meta.site ++ "</i>,")),
      (published != "", published ++ ".", none),
      (true, "[Online].", none),
      (meta.url != "", "Available: " ++ meta.url ++ ".",
        some ("Available: " ++ linkHtml meta.url ++ ".")),
      (accessed != "", "Accessed: " ++ accessed ++ ".",
        some ("Accessed: " ++ escapeHtml accessed ++ ".")) ]

/-- Fragment assembly of the default (`chicago17`) branch of
`formatCitation`. -/
def chicagoParts (authors : List String) (fallbackTitle accessed published : String)
    (meta : Metadata) : List String × List String :=
  let authorSegment := formatAuthorsChicago authors
  stylePushes
    [ (authorSegment != "", authorSegment ++ ",", none),
      (true, "\"" ++ fallbackTitle ++ ",\"",
        if fallbackTitle != "" then
          some ("&ldquo;" ++ escapeHtml fallbackTitle ++ ",&rdquo;")
        else none),
      (meta.site != "", meta.site ++ ",",
        some ("<i>" ++ escapeHtml meta.site ++ "</i>,")),
      (published != "", published ++ ".", none),
      (meta.publisher != "", meta.publisher ++ ",", none),
      (meta.url != "", meta.url, some (linkHtml meta.url)),
      (accessed != "", "Accessed " ++ accessed ++ ".",
        some ("Accessed " ++ escapeHtml accessed ++ ".")) ]

/-- Fragment lists (text and html) assembled by `formatCitation` before
joining; an unknown guideline value falls through to the Chicago branch as
in the source. -/
def formatCitationParts (meta : Metadata) (guideline : String) :
    List String × List String :=
  let authors := parseAuthors meta.author
  let fallbackTitle := displayTitle meta
  let accessed := formatAccessedDate meta.accessed
  let published := formatPublishedDate meta.year
  if guideline == "apa7" then apa7Parts authors fallbackTitle accessed published meta
  else if guideline == "mla9" then mla9Parts authors fallbackTitle accessed published meta
  else if guideline == "ieee" then ieeeParts authors fallbackTitle accessed published meta
  else chicagoParts authors fallbackTitle accessed published meta

/-- The `fallbackText` of `formatCitation`. -/
def citationFallbackText (meta : Metadata) : String :=
  if meta.url != "" then meta.url else displayTitle meta

/-- The `fallbackHtml` of `formatCitation`. -/
def citationFallbackHtml (meta : Metadata) : String :=
  if meta.url != "" then linkHtml meta.url else escapeHtml (displayTitle meta)

/-- Embeds `formatCitation`. -/
def formatCitation (meta : Metadata) (guideline : String) : CitationResult :=
  let parts := formatCitationParts meta guideline
  buildCitationResult parts.1 parts.2 (citationFallbackText meta)
    (some (citationFallbackHtml meta))

/-- The metadata record of the C7 scenario. -/
def c7Meta : Metadata :=
  { title := "Example", author := "Jane Doe", year := "2021", site := "Example.com",
    publisher := "", url := "https://example.com/a", accessed := "2024-05-01",
    source := none }

set_option maxRecDepth 4000 in
/-- Claim C7: the APA7 rendering of the scenario record begins with the
expected citation text (in fact it is exactly that text). -/
theorem c7_apa7_scenario :
    jsStartsWith (formatCitation c7Meta "apa7").text
        "Doe, J. (2021). Example. Example.com. Retrieved May 1, 2024 from https://example.com/a."
      = true
    ∧ (formatCitation c7Meta "apa7").text
      = "Doe, J. (2021). Example. Example.com. Retrieved May 1, 2024 from https://example.com/a." := by
  exact ⟨by decide, by decide⟩

/-!
Markup safety of the html output (claim C9).
-/

/-- The per-character effect of a single-character global replacement. -/
def rcChars (t : Char) (r : List Char) : List Char → List Char
  | [] => []
  | c :: cs => (if c == t then r else [c]) ++ rcChars t r cs

/-- The html expansion of one character under `escapeHtml`. -/
def entityOf (c : Char) : String :=
  if c == '&' then "&amp;"
  else if c == '<' then "&lt;"
  else if c == '>' then "&gt;"
  else if c == quoteC then "&quot;"
  else if c == aposC then "&#39;"
  else String.singleton c

/-- Character-level form of `escapeHtml`. -/
def escChars : List Char → List Char
  | [] => []
  | c :: cs => (entityOf c).data ++ escChars cs

/-- Appending strings appends the character lists. -/
theorem str_data_append (a b : String) : (a ++ b).data = a.data ++ b.data := by
  cases a; cases b; rfl

/-- A single-character replacement at the character-list level. -/
theorem replaceChar_data (t : Char) (r : String) (l : List Char) :
    (replaceChar t r ⟨l⟩).data = rcChars t r.data l := by
  induction l with
  | nil => rfl
  | cons c cs ih =>
    show (strConcatMap _ (c :: cs)).data = _
    rw [strConcatMap, str_data_append]
    have ih2 : (strConcatMap (fun c => if c == t then r else String.singleton c) cs).data
        = rcChars t r.data cs := ih
    rw [ih2, rcChars]
    by_cases h : (c == t) = true
    · rw [h]; simp
    · rw [Bool.not_eq_true] at h
      rw [h]; simp [String.singleton]

/-- A single-character replacement on a string. -/
theorem replaceChar_data' (t : Char) (r : String) (s : String) :
    (replaceChar t r s).data = rcChars t r.data s.data := by
  cases s with
  | mk l => exact replaceChar_data t r l

/-- Replacement distributes over list append. -/
theorem rcChars_append (t : Char) (r : List Char) (l1 l2 : List Char) :
    rcChars t r (l1 ++ l2) = rcChars t r l1 ++ rcChars t r l2 := by
  induction l1 with
  | nil => rfl
  | cons c cs ih => simp [rcChars, ih]

/-- One step of the five-layer escape chain: the head character expands to
its entity and the layers pass entities through untouched. -/
theorem rcChain_cons (c : Char) (l : List Char) :
    rcChars aposC "&#39;".data
        (rcChars quoteC "&quot;".data
          (rcChars '>' "&gt;".data
            (rcChars '<' "&lt;".data
              (rcChars '&' "&amp;".data (c :: l)))))
      = (entityOf c).data
        ++ rcChars aposC "&#39;".data
            (rcChars quoteC "&quot;".data
              (rcChars '>' "&gt;".data
                (rcChars '<' "&lt;".data
                  (rcChars '&' "&amp;".data l)))) := by
  by_cases h1 : c = '&'
  · subst h1
    show rcChars aposC "&#39;".data
        (rcChars quoteC "&quot;".data
          (rcChars '>' "&gt;".data
            (rcChars '<' "&lt;".data ("&amp;".data ++ rcChars '&' "&amp;".data l)))) = _
    rw [rcChars_append, (by decide : rcChars '<' "&lt;".data "&amp;".data = "&amp;".data),
      rcChars_append, (by decide : rcChars '>' "&gt;".data "&amp;".data = "&amp;".data),
      rcChars_append, (by decide : rcChars quoteC "&quot;".data "&amp;".data = "&amp;".data),
      rcChars_append, (by decide : rcChars aposC "&#39;".data "&amp;".data = "&amp;".data)]
    rfl
  · have b1 : (c == '&') = false := beq_eq_false_iff_ne.mpr h1
    by_cases h2 : c = '<'
    · subst h2
      show rcChars aposC "&#39;".data
          (rcChars quoteC "&quot;".data
            (rcChars '>' "&gt;".data
              (rcChars '<' "&lt;".data ('<' :: rcChars '&' "&amp;".data l)))) = _
      rw [(by rfl : ('<' :: rcChars '&' "&amp;".data l)
            = ['<'] ++ rcChars '&' "&amp;".data l),
        rcChars_append, (by decide : rcChars '<' "&lt;".data ['<'] = "&lt;".data),
        rcChars_append, (by decide : rcChars '>' "&gt;".data "&lt;".data = "&lt;".data),
        rcChars_append, (by decide : rcChars quoteC "&quot;".data "&lt;".data = "&lt;".data),
        rcChars_append, (by decide : rcChars aposC "&#39;".data "&lt;".data = "&lt;".data)]
      rfl
    · have b2 : (c == '<') = false := beq_eq_false_iff_ne.mpr h2
      by_cases h3 : c = '>'
      · subst h3
        show rcChars aposC "&#39;".data
            (rcChars quoteC "&quot;".data
              (rcChars '>' "&gt;".data
                (rcChars '<' "&lt;".data ('>' :: rcChars '&' "&amp;".data l)))) = _
        rw [(by rfl : ('>' :: rcChars '&' "&amp;".data l)
              = ['>'] ++ rcChars '&' "&amp;".data l),
          rcChars_append, (by decide : rcChars '<' "&lt;".data ['>'] = ['>']),
          rcChars_append, (by decide : rcChars '>' "&gt;".data ['>'] = "&gt;".data),
          rcChars_append, (by decide : rcChars quoteC "&quot;".data "&gt;".data = "&gt;".data),
          rcChars_append, (by decide : rcChars aposC "&#39;".data "&gt;".data = "&gt;".data)]
        rfl
      · have b3 : (c == '>') = false := beq_eq_false_iff_ne.mpr h3
        by_cases h4 : c = quoteC
        · subst h4
          show rcChars aposC "&#39;".data
              (rcChars quoteC "&quot;".data
                (rcChars '>' "&gt;".data
                  (rcChars '<' "&lt;".data (quoteC :: rcChars '&' "&amp;".data l)))) = _
          rw [(by rfl : (quoteC :: rcChars '&' "&amp;".data l)
                = [quoteC] ++ rcChars '&' "&amp;".data l),
            rcChars_append, (by decide : rcChars '<' "&lt;".data [quoteC] = [quoteC]),
            rcChars_append, (by decide : rcChars '>' "&gt;".data [quoteC] = [quoteC]),
            rcChars_append,
            (by decide : rcChars quoteC "&quot;".data [quoteC] = "&quot;".data),
            rcChars_append,
            (by decide : rcChars aposC "&#39;".data "&quot;".data = "&quot;".data)]
          rfl
        · have b4 : (c == quoteC) = false := beq_eq_false_iff_ne.mpr h4
          by_cases h5 : c = aposC
          · subst h5
            show rcChars aposC "&#39;".data
                (rcChars quoteC "&quot;".data
                  (rcChars '>' "&gt;".data
                    (rcChars '<' "&lt;".data (aposC :: rcChars '&' "&amp;".data l)))) = _
            rw [(by rfl : (aposC :: rcChars '&' "&amp;".data l)
                  = [aposC] ++ rcChars '&' "&amp;".data l),
              rcChars_append, (by decide : rcChars '<' "&lt;".data [aposC] = [aposC]),
              rcChars_append, (by decide : rcChars '>' "&gt;".data [aposC] = [aposC]),
              rcChars_append,
              (by decide : rcChars quoteC "&quot;".data [aposC] = [aposC]),
              rcChars_append,
              (by decide : rcChars aposC "&#39;".data [aposC] = "&#39;".data)]
            rfl
          · have b5 : (c == aposC) = false := beq_eq_false_iff_ne.mpr h5
            have s1 : rcChars '&' "&amp;".data (c :: l)
                = [c] ++ rcChars '&' "&amp;".data l := by
              simp [rcChars, b1]
            rw [s1, rcChars_append]
            have s2 : rcChars '<' "&lt;".data [c] = [c] := by simp [rcChars, b2]
            rw [s2, rcChars_append]
            have s3 : rcChars '>' "&gt;".data [c] = [c] := by simp [rcChars, b3]
            rw [s3, rcChars_append]
            have s4 : rcChars quoteC "&quot;".data [c] = [c] := by simp [rcChars, b4]
            rw [s4, rcChars_append]
            have s5 : rcChars aposC "&#39;".data [c] = [c] := by simp [rcChars, b5]
            rw [s5]
            have he : (entityOf c).data = [c] := by
              simp [entityOf, b1, b2, b3, b4, b5, String.singleton]
            rw [he]

/-- The five sequential replacements act as one per-character expansion. -/
theorem escapeHtml_data (s : String) : (escapeHtml s).data = escChars s.data := by
  unfold escapeHtml
  rw [replaceChar_data', replaceChar_data', replaceChar_data', replaceChar_data',
    replaceChar_data']
  induction s.data with
  | nil => rfl
  | cons c cs ih => rw [rcChain_cons, ih, escChars]

/-- The suffixes an ampersand may open in escaped output. -/
def entityTails : List (List Char) :=
  ["amp;".data, "lt;".data, "gt;".data, "quot;".data, "#39;".data]

/-- Every ampersand of a list begins one of the five html entities. -/
inductive AmpSafe : List Char → Prop where
  | nil : AmpSafe []
  | other (c : Char) (l : List Char) (hc : c ≠ '&') (h : AmpSafe l) : AmpSafe (c :: l)
  | entity (e l : List Char) (he : e ∈ entityTails) (h : AmpSafe l) :
      AmpSafe ('&' :: (e ++ l))

/-- Escaped character lists never contain the four dangerous characters. -/
theorem escChars_no_special (l : List Char) :
    ∀ c ∈ escChars l, c ≠ '<' ∧ c ≠ '>' ∧ c ≠ quoteC ∧ c ≠ aposC := by
  induction l with
  | nil => intro c hc; cases hc
  | cons d cs ih =>
    intro c hc
    rw [escChars] at hc
    rcases List.mem_append.mp hc with h | h
    · by_cases h1 : d = '&'
      · subst h1
        simp only [entityOf, if_pos rfl] at h
        exact (by decide : ∀ x ∈ "&amp;".data,
          x ≠ '<' ∧ x ≠ '>' ∧ x ≠ quoteC ∧ x ≠ aposC) c h
      · have b1 : (d == '&') = false := beq_eq_false_iff_ne.mpr h1
        by_cases h2 : d = '<'
        · subst h2
          simp only [entityOf, b1, Bool.false_eq_true, if_false, if_pos rfl] at h
          exact (by decide : ∀ x ∈ "&lt;".data,
            x ≠ '<' ∧ x ≠ '>' ∧ x ≠ quoteC ∧ x ≠ aposC) c h
        · have b2 : (d == '<') = false := beq_eq_false_iff_ne.mpr h2
          by_cases h3 : d = '>'
          · subst h3
            simp only [entityOf, b1, b2, Bool.false_eq_true, if_false, if_pos rfl] at h
            exact (by decide : ∀ x ∈ "&gt;".data,
              x ≠ '<' ∧ x ≠ '>' ∧ x ≠ quoteC ∧ x ≠ aposC) c h
          · have b3 : (d == '>') = false := beq_eq_false_iff_ne.mpr h3
            by_cases h4 : d = quoteC
            · subst h4
              simp only [entityOf, b1, b2, b3, Bool.false_eq_true, if_false,
                if_pos rfl] at h
              exact (by decide : ∀ x ∈ "&quot;".data,
                x ≠ '<' ∧ x ≠ '>' ∧ x ≠ quoteC ∧ x ≠ aposC) c h
            · have b4 : (d == quoteC) = false := beq_eq_false_iff_ne.mpr h4
              by_cases h5 : d = aposC
              · subst h5
                simp only [entityOf, b1, b2, b3, b4, Bool.false_eq_true, if_false,
                  if_pos rfl] at h
                exact (by decide : ∀ x ∈ "&#39;".data,
                  x ≠ '<' ∧ x ≠ '>' ∧ x ≠ quoteC ∧ x ≠ aposC) c h
              · have b5 : (d == aposC) = false := beq_eq_false_iff_ne.mpr h5
                simp only [entityOf, b1, b2, b3, b4, b5, Bool.false_eq_true, if_false,
                  String.singleton] at h
                have hcd : c = d := by simpa using h
                subst hcd
                exact ⟨h2, h3, h4, h5⟩
    · exact ih c h

/-- Escaped character lists are ampersand-entity safe. -/
theorem escChars_ampSafe (l : List Char) : AmpSafe (escChars l) := by
  induction l with
  | nil => exact AmpSafe.nil
  | cons d cs ih =>
    rw [escChars]
    by_cases h1 : d = '&'
    · subst h1
      show AmpSafe ('&' :: ("amp;".data ++ escChars cs))
      exact AmpSafe.entity _ _ (by decide) ih
    · have b1 : (d == '&') = false := beq_eq_false_iff_ne.mpr h1
      by_cases h2 : d = '<'
      · subst h2
        show AmpSafe ('&' :: ("lt;".data ++ escChars cs))
        exact AmpSafe.entity _ _ (by decide) ih
      · have b2 : (d == '<') = false := beq_eq_false_iff_ne.mpr h2
        by_cases h3 : d = '>'
        · subst h3
          show AmpSafe ('&' :: ("gt;".data ++ escChars cs))
          exact AmpSafe.entity _ _ (by decide) ih
        · have b3 : (d == '>') = false := beq_eq_false_iff_ne.mpr h3
          by_cases h4 : d = quoteC
          · subst h4
            show AmpSafe ('&' :: ("quot;".data ++ escChars cs))
            exact AmpSafe.entity _ _ (by decide) ih
          · have b4 : (d == quoteC) = false := beq_eq_false_iff_ne.mpr h4
            by_cases h5 : d = aposC
            · subst h5
              show AmpSafe ('&' :: ("#39;".data ++ escChars cs))
              exact AmpSafe.entity _ _ (by decide) ih
            · have b5 : (d == aposC) = false := beq_eq_false_iff_ne.mpr h5
              have he : (entityOf d).data = [d] := by
                simp [entityOf, b1, b2, b3, b4, b5, String.singleton]
              rw [he]
              exact AmpSafe.other d _ h1 ih

/-- The fixed markup literals that the html assembly interleaves with
escaped metadata text. -/
def htmlLiterals : List String :=
  [ "<i>", "</i>.", "</i>,", "&ldquo;", ".&rdquo;", ",&rdquo;", "<a href=\"",
    "\" target=\"_blank\" rel=\"noreferrer\">", "</a>", ".",
    "Retrieved ", " from ", "Accessed ", "Accessed: ", "Available: " ]

/-- An html fragment that is built exclusively from fixed markup literals
and `escapeHtml` applications: metadata-derived text can only enter through
the escaping. -/
inductive SafeFrag : String → Prop where
  | esc (s : String) : SafeFrag (escapeHtml s)
  | lit (s : String) (h : s ∈ htmlLiterals) : SafeFrag s
  | cat (s t : String) (hs : SafeFrag s) (ht : SafeFrag t) : SafeFrag (s ++ t)

/-- The anchor markup of `linkHtml` is literal-plus-escaped. -/
theorem safeFrag_link (u : String) : SafeFrag (linkHtml u) := by
  unfold linkHtml escapeAttribute
  exact SafeFrag.cat _ _
    (SafeFrag.cat _ _
      (SafeFrag.cat _ _
        (SafeFrag.cat _ _ (SafeFrag.lit _ (by decide)) (SafeFrag.esc u))
        (SafeFrag.lit _ (by decide)))
      (SafeFrag.esc u))
    (SafeFrag.lit _ (by decide))

/-- Italicised fragment closed by a period. -/
theorem safeFrag_ital_dot (x : String) :
    SafeFrag ("<i>" ++ escapeHtml x ++ "</i>.") :=
  SafeFrag.cat _ _
    (SafeFrag.cat _ _ (SafeFrag.lit _ (by decide)) (SafeFrag.esc x))
    (SafeFrag.lit _ (by decide))

/-- Italicised fragment closed by a comma. -/
theorem safeFrag_ital_comma (x : String) :
    SafeFrag ("<i>" ++ escapeHtml x ++ "</i>,") :=
  SafeFrag.cat _ _
    (SafeFrag.cat _ _ (SafeFrag.lit _ (by decide)) (SafeFrag.esc x))
    (SafeFrag.lit _ (by decide))

/-- Smart-quoted fragment closed by a period. -/
theorem safeFrag_quote_dot (x : String) :
    SafeFrag ("&ldquo;" ++ escapeHtml x ++ ".&rdquo;") :=
  SafeFrag.cat _ _
    (SafeFrag.cat _ _ (SafeFrag.lit _ (by decide)) (SafeFrag.esc x))
    (SafeFrag.lit _ (by decide))

/-- Smart-quoted fragment closed by a comma. -/
theorem safeFrag_quote_comma (x : String) :
    SafeFrag ("&ldquo;" ++ escapeHtml x ++ ",&rdquo;") :=
  SafeFrag.cat _ _
    (SafeFrag.cat _ _ (SafeFrag.lit _ (by decide)) (SafeFrag.esc x))
    (SafeFrag.lit _ (by decide))

/-- Anchor fragment closed by a period. -/
theorem safeFrag_link_dot (u : String) : SafeFrag (linkHtml u ++ ".") :=
  SafeFrag.cat _ _ (safeFrag_link u) (SafeFrag.lit _ (by decide))

/-- The APA retrieved-from clause. -/
theorem safeFrag_retrieved (a u : String) :
    SafeFrag ("Retrieved " ++ escapeHtml a ++ " from " ++ linkHtml u ++ ".") :=
  SafeFrag.cat _ _
    (SafeFrag.cat _ _
      (SafeFrag.cat _ _
        (SafeFrag.cat _ _ (SafeFrag.lit _ (by decide)) (SafeFrag.esc a))
        (SafeFrag.lit _ (by decide)))
      (safeFrag_link u))
    (SafeFrag.lit _ (by decide))

/-- The accessed clause. -/
theorem safeFrag_accessed (a : String) :
    SafeFrag ("Accessed " ++ escapeHtml a ++ ".") :=
  SafeFrag.cat _ _
    (SafeFrag.cat _ _ (SafeFrag.lit _ (by decide)) (SafeFrag.esc a))
    (SafeFrag.lit _ (by decide))

/-- The IEEE accessed clause. -/
theorem safeFrag_accessed_colon (a : String) :
    SafeFrag ("Accessed: " ++ escapeHtml a ++ ".") :=
  SafeFrag.cat _ _
    (SafeFrag.cat _ _ (SafeFrag.lit _ (by decide)) (SafeFrag.esc a))
    (SafeFrag.lit _ (by decide))

/-- The IEEE availability clause. -/
theorem safeFrag_available (u : String) :
    SafeFrag ("Available: " ++ linkHtml u ++ ".") :=
  SafeFrag.cat _ _
    (SafeFrag.cat _ _ (SafeFrag.lit _ (by decide)) (safeFrag_link u))
    (SafeFrag.lit _ (by decide))

/-- Every html fragment of a part pair is literal-plus-escaped. -/
def safeParts (p : List String × List String) : Prop :=
  ∀ x ∈ p.2, SafeFrag x

/-- A `push` keeps the html fragment list safe provided the supplied html
fragment is safe (the default is escaped text, which is always safe). -/
theorem pushPart_safe (acc : List String × List String) (text : String)
    (html : Option String) (hacc : safeParts acc)
    (hh : ∀ s, html = some s → SafeFrag s) :
    safeParts (pushPart acc text html) := by
  intro x hx
  unfold pushPart at hx
  by_cases ht : (jsTrim text == "") = true
  · rw [if_pos ht] at hx
    exact hacc x hx
  · rw [if_neg ht] at hx
    simp only at hx
    rcases List.mem_append.mp hx with h | h
    · exact hacc x h
    · have hx2 := List.mem_singleton.mp h
      subst hx2
      match html with
      | none => exact SafeFrag.esc _
      | some hstr =>
        by_cases hne : (hstr != "") = true
        · simp only [hne, if_true]
          exact hh hstr rfl
        · rw [Bool.not_eq_true] at hne
          simp only [hne, Bool.false_eq_true, if_false]
          exact SafeFrag.esc _

/-- A guarded push sequence started from a safe accumulator stays safe when
every step's html fragment is safe. -/
theorem stylePushes_go_safe (steps : List (Bool × String × Option String)) :
    ∀ init : List String × List String, safeParts init →
      (∀ st ∈ steps, ∀ s, st.2.2 = some s → SafeFrag s) →
      safeParts (steps.foldl
        (fun acc step => if step.1 then pushPart acc step.2.1 step.2.2 else acc) init) := by
  induction steps with
  | nil => intro init hinit _; exact hinit
  | cons st rest ih =>
    intro init hinit h
    simp only [List.foldl_cons]
    apply ih
    · by_cases hc : st.1 = true
      · rw [if_pos hc]
        exact pushPart_safe _ _ _ hinit (h st (List.mem_cons_self _ _) )
      · rw [if_neg hc]
        exact hinit
    · intro st2 hst2 s hs
      exact h st2 (List.mem_cons_of_mem _ hst2) s hs

/-- A style's push sequence is safe when each step's html is safe. -/
theorem stylePushes_safe (steps : List (Bool × String × Option String))
    (h : ∀ st ∈ steps, ∀ s, st.2.2 = some s → SafeFrag s) :
    safeParts (stylePushes steps) := by
  unfold stylePushes
  exact stylePushes_go_safe steps ([], []) (by intro x hx; cases hx) h

/-- All html fragments of the APA branch are literal-plus-escaped. -/
theorem apa7Parts_safe (authors : List String) (t a p : String) (meta : Metadata) :
    safeParts (apa7Parts authors t a p meta) := by
  unfold apa7Parts
  apply stylePushes_safe
  intro st hst s hs
  simp only [List.mem_cons, List.not_mem_nil, or_false] at hst
  rcases hst with rfl | rfl | rfl | rfl | rfl | rfl | rfl
  · exact Option.noConfusion hs
  · exact Option.noConfusion hs
  · dsimp only at hs
    split at hs
    · injection hs with h
      subst h
      exact safeFrag_ital_dot _
    · exact Option.noConfusion hs
  · exact Option.noConfusion hs
  · exact Option.noConfusion hs
  · dsimp only at hs
    injection hs with h
    subst h
    exact safeFrag_retrieved _ _
  · dsimp only at hs
    injection hs with h
    subst h
    exact safeFrag_link _

/-- All html fragments of the MLA branch are literal-plus-escaped. -/
theorem mla9Parts_safe (authors : List String) (t a p : String) (meta : Metadata) :
    safeParts (mla9Parts authors t a p meta) := by
  unfold mla9Parts
  apply stylePushes_safe
  intro st hst s hs
  simp only [List.mem_cons, List.not_mem_nil, or_false] at hst
  rcases hst with rfl | rfl | rfl | rfl | rfl | rfl | rfl
  · exact Option.noConfusion hs
  · dsimp only at hs
    split at hs
    · injection hs with h
      subst h
      exact safeFrag_quote_dot _
    · exact Option.noConfusion hs
  · dsimp only at hs
    injection hs with h
    subst h
    exact safeFrag_ital_comma _
  · exact Option.noConfusion hs
  · exact Option.noConfusion hs
  · dsimp only at hs
    injection hs with h
    subst h
    exact safeFrag_link_dot _
  · dsimp only at hs
    injection hs with h
    subst h
    exact safeFrag_accessed _

/-- All html fragments of the IEEE branch are literal-plus-escaped. -/
theorem ieeeParts_safe (authors : List String) (t a p : String) (meta : Metadata) :
    safeParts (ieeeParts authors t a p meta) := by
  unfold ieeeParts
  apply stylePushes_safe
  intro st hst s hs
  simp only [List.mem_cons, List.not_mem_nil, or_false] at hst
  rcases hst with rfl | rfl | rfl | rfl | rfl | rfl | rfl
  · exact Option.noConfusion hs
  · dsimp only at hs
    split at hs
    · injection hs with h
      subst h
      exact safeFrag_quote_comma _
    · exact Option.noConfusion hs
  · dsimp only at hs
    injection hs with h
    subst h
    exact safeFrag_ital_comma _
  · exact Option.noConfusion hs
  · exact Option.noConfusion hs
  · dsimp only at hs
    injection hs with h
    subst h
    exact safeFrag_available _
  · dsimp only at hs
    injection hs with h
    subst h
    exact safeFrag_accessed_colon _

/-- All html fragments of the Chicago branch are literal-plus-escaped. -/
theorem chicagoParts_safe (authors : List String) (t a p : String) (meta : Metadata) :
    safeParts (chicagoParts authors t a p meta) := by
  unfold chicagoParts
  apply stylePushes_safe
  intro st hst s hs
  simp only [List.mem_cons, List.not_mem_nil, or_false] at hst
  rcases hst with rfl | rfl | rfl | rfl | rfl | rfl | rfl
  · exact Option.noConfusion hs
  · dsimp only at hs
    split at hs
    · injection hs with h
      subst h
      exact safeFrag_quote_comma _
    · exact Option.noConfusion hs
  · dsimp only at hs
    injection hs with h
    subst h
    exact safeFrag_ital_comma _
  · exact Option.noConfusion hs
  · exact Option.noConfusion hs
  · dsimp only at hs
    injection hs with h
    subst h
    exact safeFrag_link _
  · dsimp only at hs
    injection hs with h
    subst h
    exact safeFrag_accessed _

/-- All html fragments of every style are literal-plus-escaped. -/
theorem formatCitationParts_safe (meta : Metadata) (guideline : String) :
    safeParts (formatCitationParts meta guideline) := by
  unfold formatCitationParts
  split
  · exact apa7Parts_safe _ _ _ _ _
  · split
    · exact mla9Parts_safe _ _ _ _ _
    · split
      · exact ieeeParts_safe _ _ _ _ _
      · exact chicagoParts_safe _ _ _ _ _

/-- Claim C9: escaping removes every dangerous character, every remaining
ampersand opens one of the five entities, `linkHtml` escapes both the href
and the link text, and every html fragment of every citation style
(including the fallback html) is assembled from fixed markup literals and
escaped metadata only. -/
theorem c9_markup_safety :
    (∀ s : String, ∀ c ∈ (escapeHtml s).data,
        c ≠ '<' ∧ c ≠ '>' ∧ c ≠ quoteC ∧ c ≠ aposC)
    ∧ (∀ s : String, AmpSafe (escapeHtml s).data)
    ∧ (∀ u : String,
        linkHtml u
          = "<a href=\"" ++ escapeHtml u ++ "\" target=\"_blank\" rel=\"noreferrer\">"
            ++ escapeHtml u ++ "</a>")
    ∧ (∀ (meta : Metadata) (guideline : String),
        (∀ h ∈ (formatCitationParts meta guideline).2, SafeFrag h)
        ∧ SafeFrag (citationFallbackHtml meta)) := by
  refine ⟨?_, ?_, ?_, ?_⟩
  · intro s c hc
    rw [escapeHtml_data] at hc
    exact escChars_no_special _ c hc
  · intro s
    rw [escapeHtml_data]
    exact escChars_ampSafe _
  · intro u
    rfl
  · intro meta g
    refine ⟨formatCitationParts_safe meta g, ?_⟩
    unfold citationFallbackHtml
    split
    · exact safeFrag_link _
    · exact SafeFrag.esc _

/-- Witness for C9 at concrete strings, records and fragments. -/
theorem c9_markup_safety_witness :
    ('a' ≠ '<' ∧ 'a' ≠ '>' ∧ 'a' ≠ quoteC ∧ 'a' ≠ aposC)
    ∧ AmpSafe (escapeHtml "<b>&x").data
    ∧ SafeFrag "(n.d.)."
    ∧ SafeFrag (citationFallbackHtml emptyMeta) := by
  refine ⟨c9_markup_safety.1 "a<b" 'a' (by decide), c9_markup_safety.2.1 "<b>&x", ?_, ?_⟩
  · have h := (c9_markup_safety.2.2.2 emptyMeta "apa7").1 "(n.d.)."
      (by decide)
    simpa using h
  · exact (c9_markup_safety.2.2.2 emptyMeta "apa7").2

/-!
The remote resolution pipeline (claims C1 and C4).  The HTTP fetch
collaborator is modelled by `FetchOutcome`: it either threw, or returned a
response with a status flag, an optional content type and a body.  The page
extractor (`parseHtmlMetadata`, which needs the platform `DOMParser`) is
the collaborator parameter `parsePage`, and the platform `JSON.parse` is
`jsonParse`.
-/

/-- Outcome of one `fetch` call of the collaborator. -/
inductive FetchOutcome where
  | threw
  | response (ok : Bool) (contentType : Option String) (body : String)
deriving DecidableEq, Repr

/-- The unanchored case-insensitive regex `text\/(html|plain)` test. -/
def textHtmlPlainTest (c : String) : Bool :=
  jsIncludes (jsToLower c) "text/html" || jsIncludes (jsToLower c) "text/plain"

/-- Embeds `fetchPageHtml`: a thrown fetch, a non-OK status or a non-text
content type yield `null`; otherwise the body text is returned. -/
def fetchPageHtml (outcome : FetchOutcome) : Option String :=
  match outcome with
  | .threw => none
  | .response ok ct body =>
    if !ok then none
    else match ct with
      | some c => if !(textHtmlPlainTest c) then none else some body
      | none => some body

/-- Result of one gathering stage. -/
structure GatherResult where
  meta : Option PartialMetadata
  blocked : Bool
deriving DecidableEq, Repr

/-- Embeds `gatherMetadataFromSource`: the fetch outcome stands for the
collaborator's answer for the requested source URL (direct or proxied); a
null result and an empty body are both treated as blocked, and a parse
without meaningful fields yields no metadata. -/
def gatherMetadataFromSource (parsePage : String → String → PartialMetadata)
    (outcome : FetchOutcome) (targetUrl : String) : GatherResult :=
  match fetchPageHtml outcome with
  | none => ⟨none, true⟩
  | some html =>
    if html == "" then ⟨none, true⟩
    else
      let parsed := parsePage html targetUrl
      ⟨if hasMeaningfulMetadata (some parsed) then some parsed else none, false⟩

/-- A reader-mirror answer usable as markdown: an OK response with a
non-empty body. -/
def mirrorText (outcome : FetchOutcome) : Option String :=
  match outcome with
  | .threw => none
  | .response ok _ body => if ok && body != "" then some body else none

/-- Embeds `fetchReadableMarkdown`: the three mirror URLs are tried in
order and the first usable answer wins. -/
def fetchReadableMarkdown (m1 m2 m3 : FetchOutcome) : Option String :=
  match mirrorText m1 with
  | some md => some md
  | none =>
    match mirrorText m2 with
    | some md => some md
    | none => mirrorText m3

/-- Helper for the fence splitter: prepend a character to the first
segment. -/
def consHead (c : Char) : List (List Char) → List (List Char)
  | [] => [[c]]
  | seg :: rest => (c :: seg) :: rest

/-- Split at every triple-backtick fence, left to right (the fuel argument
only makes the recursion structural; it never runs out). -/
def splitTicksGo : Nat → List Char → List (List Char)
  | 0, l => [l]
  | n + 1, a :: b :: c :: r =>
    if a == tickC && b == tickC && c == tickC then [] :: splitTicksGo n r
    else consHead a (splitTicksGo n (b :: c :: r))
  | _ + 1, l => [l]

/-- Segments of a text between triple-backtick fences. -/
def splitTicks (l : List Char) : List (List Char) := splitTicksGo l.length l

/-- Rebuild the text with every complete fenced block replaced by a space,
an unpaired final fence kept literally: the `replace(/```[\s\S]*?```/g, ' ')`
step of `sanitizeContext`. -/
def dropFencesSegs : List (List Char) → List Char
  | [] => []
  | [a] => a
  | [a, b] => a ++ tickC :: tickC :: tickC :: b
  | a :: _ :: rest => a ++ ' ' :: dropFencesSegs rest

/-- The fenced-code removal step of `sanitizeContext`. -/
def stripFences (s : String) : String := ⟨dropFencesSegs (splitTicks s.data)⟩

/-- Scanner state and loop for the `replace(/<[^>]+>/g, ' ')` step: a
buffer collects the characters after an unclosed `<`. -/
def stripTagsGo : Option (List Char) → List Char → List Char
  | none, [] => []
  | some b, [] => '<' :: b.reverse
  | none, c :: r => if c == '<' then stripTagsGo (some []) r else c :: stripTagsGo none r
  | some b, c :: r =>
    if c == '>' then
      (if b.isEmpty then '<' :: '>' :: stripTagsGo none r else ' ' :: stripTagsGo none r)
    else stripTagsGo (some (c :: b)) r

/-- The tag removal step of `sanitizeContext`. -/
def stripTags (s : String) : String := ⟨stripTagsGo none s.data⟩

/-- Embeds `sanitizeContext`: strip fenced code blocks, strip tags,
collapse whitespace, trim. -/
def sanitizeContext (value : String) : String :=
  jsTrim ⟨collapseWsChars (stripTags (stripFences value)).data⟩

/-- The `POLLINATIONS_CHUNK_SIZE` constant. -/
def pollinationsChunkSize : Nat := 4999

/-- Embeds `splitContextIntoChunks`. -/
def splitContextIntoChunks (value : String) (size : Nat) : List String :=
  let sanitized := sanitizeContext value
  if sanitized == "" then []
  else if jsLength sanitized ≤ size then [sanitized]
  else
    let first := jsTake sanitized size
    let last := jsTakeRight sanitized size
    if first == last then [first] else [first, last]

/-- Embeds `buildMetadataPrompt`. -/
def buildMetadataPrompt (context url : String) : String :=
  jsJoin "\n"
    [ "You are a meticulous citation metadata extractor.",
      "Return ONLY strict JSON with keys \"title\",\"author\",\"year\",\"publisher\",\"site\",\"accessed\". Empty or missing values must be null.",
      "Never include prose, explanations, or markdown fences—respond with JSON only.",
      "Context: " ++ context,
      "URL: " ++ url ]

/-- Does a fenced segment start with `json` (case-insensitively)? -/
def startsJsonCI (s : List Char) : Bool :=
  (s.take 4).map Char.toLower == "json".data

/-- First segment that realises the lazy regex ```` ```json([\s\S]*?)``` ````:
preceded by a fence, starting with `json`, and closed by a later fence. -/
def findJsonFenceGo : List (List Char) → Option (List Char)
  | [] => none
  | [_] => none
  | _ :: s :: rest =>
    if !rest.isEmpty && startsJsonCI s then some (s.drop 4)
    else findJsonFenceGo (s :: rest)

/-- The fenced-block candidate of `parseMetadataPayload`: a ```` ```json ````
block when one exists, else the first plain fenced block. -/
def codeBlockCandidate (trimmed : String) : Option String :=
  let segs := splitTicks trimmed.data
  match findJsonFenceGo segs with
  | some g => some ⟨g⟩
  | none =>
    match segs with
    | _ :: s :: _ :: _ => some ⟨s⟩
    | _ => none

/-- The greedy `\{[\s\S]*\}` candidate: from the first opening brace to the
last closing brace, when the latter comes after the former. -/
def bracesCandidate (trimmed : String) : Option String :=
  let l := trimmed.data
  match l.findIdx? (fun c => c == lbraceC), l.reverse.findIdx? (fun c => c == rbraceC) with
  | some i, some jr =>
    let j := l.length - 1 - jr
    if i < j then some ⟨(l.drop i).take (j - i + 1)⟩ else none
  | _, _ => none

/-- The candidate payloads tried in order by `parseMetadataPayload`
(an empty regex capture is falsy and therefore not pushed). -/
def parseMetadataPayloadCandidates (trimmed : String) : List String :=
  (match codeBlockCandidate trimmed with
    | some g => if g != "" then [g] else []
    | none => [])
  ++ (match bracesCandidate trimmed with
    | some b => if b != "" then [b] else []
    | none => [])
  ++ [trimmed]

/-- First candidate the JSON parser accepts as an object. -/
def firstParse (jsonParse : String → Option PartialMetadata) :
    List String → Option PartialMetadata
  | [] => none
  | c :: r =>
    match jsonParse c with
    | some m => some m
    | none => firstParse jsonParse r

/-- Embeds `parseMetadataPayload`; `jsonParse` models the platform
`JSON.parse` composed with the object check, returning `none` on a parse
error or a non-object. -/
def parseMetadataPayload (jsonParse : String → Option PartialMetadata)
    (payload : String) : Option PartialMetadata :=
  firstParse jsonParse (parseMetadataPayloadCandidates (jsTrim payload))

/-- The `Object.keys(parsed).length` test on a normalised record, whose
keys can only be the seven string keys. -/
def partialHasKeys (p : PartialMetadata) : Bool :=
  p.title.isSome || p.author.isSome || p.year.isSome || p.publisher.isSome
    || p.site.isSome || p.url.isSome || p.accessed.isSome

/-- Error copy of the AI stage, verbatim from the source. -/
def aiMirrorError : String :=
  "Could not load a readable version of the page. Try the manual option."

/-- Error shown when no readable content survives sanitisation. -/
def aiEmptyError : String :=
  "Could not find readable content. Try the manual option."

/-- Error shown when the completion endpoint answers non-OK. -/
def aiUnavailableError : String :=
  "Pollinations is unavailable right now. Try again in a bit."

/-- Error shown when the answer holds no parseable object. -/
def aiParseError : String :=
  "SimpleCite could not understand the response. Try again or switch to manual."

/-- Error shown when the completion fetch throws. -/
def aiNetworkError : String := "Could not reach the metadata service."

/-- The per-chunk loop of `fetchMetadataViaAi`.  The `llm` collaborator
maps the chunk index to the completion fetch outcome (the prompt built from
the chunk text lives behind that boundary); the progress callback has no
observable effect and is omitted. -/
def aiLoop (jsonParse : String → Option PartialMetadata) (llm : Nat → FetchOutcome)
    (requireAuthor : Bool) :
    List String → Nat → Option PartialMetadata → String →
      Option PartialMetadata × String
  | [], _, acc, lastError => (acc, lastError)
  | _ :: rest, i, acc, lastError =>
    match llm i with
    | .threw => aiLoop jsonParse llm requireAuthor rest (i + 1) acc aiNetworkError
    | .response ok _ raw =>
      if !ok then aiLoop jsonParse llm requireAuthor rest (i + 1) acc aiUnavailableError
      else
        let parsed := normalizeMetadata (parseMetadataPayload jsonParse raw)
        if partialHasKeys parsed then
          let acc2 := mergeMetadataValues acc (some parsed)
          if metadataIsSufficient acc2 requireAuthor then (acc2, lastError)
          else aiLoop jsonParse llm requireAuthor rest (i + 1) acc2 lastError
        else aiLoop jsonParse llm requireAuthor rest (i + 1) acc aiParseError

/-- Embeds `fetchMetadataViaAi`. -/
def fetchMetadataViaAi (jsonParse : String → Option PartialMetadata)
    (m1 m2 m3 : FetchOutcome) (llm : Nat → FetchOutcome) (requireAuthor : Bool) :
    Option PartialMetadata × Option String :=
  match fetchReadableMarkdown m1 m2 m3 with
  | none => (none, some aiMirrorError)
  | some markdown =>
    let promptChunks := splitContextIntoChunks markdown pollinationsChunkSize
    if promptChunks.isEmpty then (none, some aiEmptyError)
    else
      match aiLoop jsonParse llm requireAuthor promptChunks 0 none "" with
      | (some m, lastError) =>
        (some m, if lastError != "" then some lastError else none)
      | (none, lastError) =>
        (none, some (if lastError != "" then lastError else aiEmptyError))

/-- Embeds `mergeMetadataWithDefaults`. -/
def mergeMetadataWithDefaults (g : String → Option String) (data : PartialMetadata)
    (targetUrl : String) : Metadata :=
  finalizeMetadata g
    { title := data.title.getD "", author := data.author.getD "",
      year := data.year.getD "", site := data.site.getD "",
      publisher := data.publisher.getD "",
      url := if filled data.url then data.url.getD "" else targetUrl,
      accessed := data.accessed.getD "", source := data.source }

/-- The scheme test `/^(https?:)?\/\//i` of `runSimpleCite`. -/
def hasScheme (v : String) : Bool :=
  jsStartsWith (jsToLower v) "//" || jsStartsWith (jsToLower v) "http://"
    || jsStartsWith (jsToLower v) "https://"

/-- The target URL derived from the pasted value. -/
def resolveTargetUrl (value : String) : String :=
  if hasScheme (jsTrim value) then jsTrim value else "https://" ++ jsTrim value

/-- Which stage of `runSimpleCite` produced the final state. -/
inductive FinishStage where
  | direct
  | proxy
  | ai
  | manual
deriving DecidableEq, Repr

/-- The accumulator after the direct-fetch stage merged its candidate. -/
def directAccumulator (parsePage : String → String → PartialMetadata)
    (directFetch : FetchOutcome) (targetUrl : String) : Option PartialMetadata :=
  mergeMetadataValues none (gatherMetadataFromSource parsePage directFetch targetUrl).meta

/-- The accumulator after the proxied-fetch stage merged its candidate. -/
def proxyAccumulator (parsePage : String → String → PartialMetadata)
    (directFetch proxyFetch : FetchOutcome) (targetUrl : String) :
    Option PartialMetadata :=
  mergeMetadataValues (directAccumulator parsePage directFetch targetUrl)
    (gatherMetadataFromSource parsePage proxyFetch targetUrl).meta

/-- The accumulator after the AI stage merged its candidate. -/
def aiAccumulator (parsePage : String → String → PartialMetadata)
    (jsonParse : String → Option PartialMetadata)
    (directFetch proxyFetch m1 m2 m3 : FetchOutcome) (llm : Nat → FetchOutcome)
    (targetUrl : String) : Option PartialMetadata :=
  mergeMetadataValues (proxyAccumulator parsePage directFetch proxyFetch targetUrl)
    (fetchMetadataViaAi jsonParse m1 m2 m3 llm true).1

/-- The finished record of a successful `finishIfReady`. -/
def finishMeta (g : String → Option String) (acc : Option PartialMetadata)
    (targetUrl : String) (src : MetadataSource) : Metadata :=
  { mergeMetadataWithDefaults g (acc.getD emptyPartial) targetUrl with source := some src }

/-- The best-effort record of the terminal manual fallback (which does not
run the finaliser). -/
def manualFallbackMeta (acc : Option PartialMetadata) (targetUrl : String) : Metadata :=
  let f := acc.getD emptyPartial
  { title := f.title.getD "", author := f.author.getD "", year := f.year.getD "",
    site := f.site.getD "", publisher := f.publisher.getD "",
    url := if filled f.url then f.url.getD "" else targetUrl,
    accessed := f.accessed.getD "", source := some MetadataSource.manual }

/-- Embeds the metadata pipeline of `runSimpleCite`: an empty pasted value
aborts (`none`); otherwise the three stages run in order, each merging into
the accumulator, and every `finishIfReady` call checks sufficiency with
`requireAuthor: true` exactly as in the source; the result records the
final metadata, the source label and the stage that finished. -/
def runSimpleCiteModel (g : String → Option String)
    (parsePage : String → String → PartialMetadata)
    (jsonParse : String → Option PartialMetadata)
    (directFetch proxyFetch m1 m2 m3 : FetchOutcome)
    (llm : Nat → FetchOutcome) (value : String) :
    Option (Metadata × MetadataSource × FinishStage) :=
  if jsTrim value == "" then none
  else
    let targetUrl := resolveTargetUrl value
    if metadataIsSufficient (directAccumulator parsePage directFetch targetUrl) true then
      some (finishMeta g (directAccumulator parsePage directFetch targetUrl) targetUrl
          MetadataSource.simplecite,
        MetadataSource.simplecite, FinishStage.direct)
    else if metadataIsSufficient
        (proxyAccumulator parsePage directFetch proxyFetch targetUrl) true then
      some (finishMeta g (proxyAccumulator parsePage directFetch proxyFetch targetUrl)
          targetUrl MetadataSource.simplecite,
        MetadataSource.simplecite, FinishStage.proxy)
    else if metadataIsSufficient
        (aiAccumulator parsePage jsonParse directFetch proxyFetch m1 m2 m3 llm targetUrl)
        true then
      some (finishMeta g
          (aiAccumulator parsePage jsonParse directFetch proxyFetch m1 m2 m3 llm targetUrl)
          targetUrl MetadataSource.simpleciteAi,
        MetadataSource.simpleciteAi, FinishStage.ai)
    else
      some (manualFallbackMeta
          (aiAccumulator parsePage jsonParse directFetch proxyFetch m1 m2 m3 llm targetUrl)
          targetUrl,
        MetadataSource.manual, FinishStage.manual)

/-- A page extractor behaviour that finds a title and a url but no author. -/
def c1ParsePage : String → String → PartialMetadata :=
  fun _ _ => { emptyPartial with title := some "T", url := some "https://e.com/x" }

/-- A completion collaborator whose every fetch throws. -/
def allThrew : Nat → FetchOutcome := fun _ => FetchOutcome.threw

/-- A URL parser behaviour that always throws. -/
def noHost : String → Option String := fun _ => none

/-- A JSON parser behaviour that never yields an object. -/
def noJson : String → Option PartialMetadata := fun _ => none

/-- Claim C1 counterexample: after the direct fetch the accumulator is
sufficient with author NOT required, yet the pipeline does not finish at
the direct stage, because the code checks sufficiency with
`requireAuthor: true` there. -/
theorem c1_counterexample :
    metadataIsSufficient
        (directAccumulator c1ParsePage (FetchOutcome.response true none "<html>")
          "https://e.com/x")
        false = true
    ∧ (runSimpleCiteModel noHost c1ParsePage noJson
          (FetchOutcome.response true none "<html>") FetchOutcome.threw
          FetchOutcome.threw FetchOutcome.threw FetchOutcome.threw allThrew
          "https://e.com/x").map (fun r => r.2.2)
        ≠ some FinishStage.direct := by
  exact ⟨by decide, by decide⟩

/-- Claim C1 (amended): for a non-empty pasted value the pipeline finishes
at the direct-fetch stage exactly when the accumulator after that stage is
sufficient with author REQUIRED, and the result is then labelled with the
page-resolved source tag. -/
theorem c1_direct_stage_finish :
    ∀ (g : String → Option String) (parsePage : String → String → PartialMetadata)
      (jsonParse : String → Option PartialMetadata)
      (directFetch proxyFetch m1 m2 m3 : FetchOutcome) (llm : Nat → FetchOutcome)
      (value : String),
      jsTrim value ≠ "" →
      ((runSimpleCiteModel g parsePage jsonParse directFetch proxyFetch m1 m2 m3 llm
            value).map (fun r => r.2.2) = some FinishStage.direct
        ↔ metadataIsSufficient
            (directAccumulator parsePage directFetch (resolveTargetUrl value)) true = true)
      ∧ ((runSimpleCiteModel g parsePage jsonParse directFetch proxyFetch m1 m2 m3 llm
            value).map (fun r => r.2.2) = some FinishStage.direct →
          (runSimpleCiteModel g parsePage jsonParse directFetch proxyFetch m1 m2 m3 llm
            value).map (fun r => r.2.1) = some MetadataSource.simplecite) := by
  intro g parsePage jsonParse directFetch proxyFetch m1 m2 m3 llm value hv
  have hb : (jsTrim value == "") = false := beq_eq_false_iff_ne.mpr hv
  unfold runSimpleCiteModel
  rw [if_neg (bfalse_not_true hb)]
  by_cases h1 : metadataIsSufficient
      (directAccumulator parsePage directFetch (resolveTargetUrl value)) true = true
  · rw [if_pos h1]
    simp [h1]
  · rw [if_neg h1]
    split
    · simp [h1]
    · split
      · simp [h1]
      · simp [h1]

/-- Witness for the amended C1 theorem at concrete collaborator
behaviours. -/
theorem c1_direct_stage_finish_witness :
    (runSimpleCiteModel noHost c1ParsePage noJson
          (FetchOutcome.response true none "<html>") FetchOutcome.threw
          FetchOutcome.threw FetchOutcome.threw FetchOutcome.threw allThrew
          "e.com").map (fun r => r.2.2) = some FinishStage.direct
      ↔ metadataIsSufficient
          (directAccumulator c1ParsePage (FetchOutcome.response true none "<html>")
            (resolveTargetUrl "e.com")) true = true :=
  (c1_direct_stage_finish noHost c1ParsePage noJson
    (FetchOutcome.response true none "<html>") FetchOutcome.threw FetchOutcome.threw
    FetchOutcome.threw FetchOutcome.threw allThrew "e.com" (by decide)).1

/-- A completion outcome that cannot contribute metadata: the fetch threw
or answered non-OK. -/
def llmFailed : FetchOutcome → Bool
  | .threw => true
  | .response ok _ _ => !ok

/-- When every completion fetch fails, the chunk loop accumulates
nothing. -/
theorem aiLoop_all_fail (jsonParse : String → Option PartialMetadata)
    (llm : Nat → FetchOutcome) (ra : Bool)
    (hf : ∀ i, llmFailed (llm i) = true) :
    ∀ (chunks : List String) (i : Nat) (err : String),
      (aiLoop jsonParse llm ra chunks i none err).1 = none := by
  intro chunks
  induction chunks with
  | nil => intro i err; rfl
  | cons chunk rest ih =>
    intro i err
    cases hl : llm i with
    | threw =>
      unfold aiLoop
      rw [hl]
      exact ih _ _
    | response ok ct body =>
      cases ok with
      | true =>
        have h := hf i
        rw [hl] at h
        simp [llmFailed] at h
      | false =>
        unfold aiLoop
        rw [hl]
        exact ih _ _

/-- Claim C4: every failing fetch behaviour (thrown, non-OK, wrong content
type, empty body) makes a gathering stage return a blocked no-metadata
value; the AI stage likewise returns a null record with an error message
when its mirrors or completions fail; and with every collaborator failing
the pipeline still walks all stages and returns the best-effort
manual-source result. -/
theorem c4_stage_errors_not_fatal :
    ∀ (parsePage : String → String → PartialMetadata)
      (jsonParse : String → Option PartialMetadata) (g : String → Option String)
      (m1 m2 m3 : FetchOutcome) (llm : Nat → FetchOutcome)
      (targetUrl body : String) (ct : Option String) (c : String) (value : String),
      gatherMetadataFromSource parsePage FetchOutcome.threw targetUrl
          = ⟨none, true⟩
      ∧ gatherMetadataFromSource parsePage (FetchOutcome.response false ct body)
          targetUrl = ⟨none, true⟩
      ∧ (textHtmlPlainTest c = false →
          gatherMetadataFromSource parsePage (FetchOutcome.response true (some c) body)
            targetUrl = ⟨none, true⟩)
      ∧ gatherMetadataFromSource parsePage (FetchOutcome.response true ct "") targetUrl
          = ⟨none, true⟩
      ∧ fetchMetadataViaAi jsonParse FetchOutcome.threw FetchOutcome.threw
          FetchOutcome.threw llm true = (none, some aiMirrorError)
      ∧ ((∀ i, llmFailed (llm i) = true) →
          (fetchMetadataViaAi jsonParse m1 m2 m3 llm true).1 = none
          ∧ (fetchMetadataViaAi jsonParse m1 m2 m3 llm true).2.isSome = true)
      ∧ (jsTrim value ≠ "" →
          runSimpleCiteModel g parsePage jsonParse FetchOutcome.threw FetchOutcome.threw
            FetchOutcome.threw FetchOutcome.threw FetchOutcome.threw
            (fun _ => FetchOutcome.threw) value
          = some (manualFallbackMeta none (resolveTargetUrl value),
              MetadataSource.manual, FinishStage.manual)) := by
  intro parsePage jsonParse g m1 m2 m3 llm targetUrl body ct c value
  refine ⟨rfl, rfl, ?_, ?_, rfl, ?_, ?_⟩
  · intro hc
    simp [gatherMetadataFromSource, fetchPageHtml, hc]
  · cases ct with
    | none => rfl
    | some c2 =>
      by_cases htest : textHtmlPlainTest c2 = true
      · simp [gatherMetadataFromSource, fetchPageHtml, htest]
      · rw [Bool.not_eq_true] at htest
        simp [gatherMetadataFromSource, fetchPageHtml, htest]
  · intro hf
    unfold fetchMetadataViaAi
    cases hm : fetchReadableMarkdown m1 m2 m3 with
    | none => exact ⟨rfl, rfl⟩
    | some md =>
      by_cases hc : (splitContextIntoChunks md pollinationsChunkSize).isEmpty = true
      · simp [hc]
      · rw [Bool.not_eq_true] at hc
        have hl := aiLoop_all_fail jsonParse llm true hf
          (splitContextIntoChunks md pollinationsChunkSize) 0 ""
        rcases hres : aiLoop jsonParse llm true
            (splitContextIntoChunks md pollinationsChunkSize) 0 none "" with ⟨acc, err⟩
        rw [hres] at hl
        simp only at hl
        subst hl
        simp [hc, hres]
  · intro hv
    have hb : (jsTrim value == "") = false := beq_eq_false_iff_ne.mpr hv
    unfold runSimpleCiteModel
    rw [if_neg (bfalse_not_true hb)]
    rfl

/-- Witness for C4 at concrete collaborator behaviours. -/
theorem c4_stage_errors_not_fatal_witness :
    gatherMetadataFromSource c1ParsePage FetchOutcome.threw "https://e.com" = ⟨none, true⟩
    ∧ gatherMetadataFromSource c1ParsePage
        (FetchOutcome.response true (some "application/json") "x") "https://e.com"
      = ⟨none, true⟩
    ∧ ((fetchMetadataViaAi noJson FetchOutcome.threw FetchOutcome.threw FetchOutcome.threw
          allThrew true).1 = none
        ∧ (fetchMetadataViaAi noJson FetchOutcome.threw FetchOutcome.threw
            FetchOutcome.threw allThrew true).2.isSome = true)
    ∧ runSimpleCiteModel noHost c1ParsePage noJson FetchOutcome.threw FetchOutcome.threw
        FetchOutcome.threw FetchOutcome.threw FetchOutcome.threw
        (fun _ => FetchOutcome.threw) "e.com"
      = some (manualFallbackMeta none (resolveTargetUrl "e.com"),
          MetadataSource.manual, FinishStage.manual) := by
  have H := c4_stage_errors_not_fatal c1ParsePage noJson noHost FetchOutcome.threw
    FetchOutcome.threw FetchOutcome.threw allThrew "https://e.com" "x" (some "text/css")
    "application/json" "e.com"
  exact ⟨H.1, H.2.2.1 (by decide), H.2.2.2.2.2.1 (fun i => rfl),
    H.2.2.2.2.2.2 (by decide)⟩
